import Mathlib

/-!
# log_monitor.cpp: a shallow embedding and its verified properties

The embedding follows `src/log_monitor.cpp` function by function.

* A `std::string` is a `List Char`; every `Char` stands for one byte of the
  C++ string (the byte value is the code point), so the non-ASCII literals of
  the source are written as their UTF-8 bytes.
* The program never calls `setlocale`, so `tolower`, `\d` and `\b` are the ones
  of the "C" locale.
* `long long` and `int` values are `Int`; a counter only overflows after
  `2^63` lines, which no file reaches.
* `std::unordered_map<string,long long>` is an association list with distinct
  keys; its iteration order is the order of the list. The real container
  iterates in an unspecified order and `std::sort` leaves the order of equal
  counts open, so what is proved of the printed listing holds for every order
  of the entries.
-/

namespace LogMonitor

/-- A C++ `std::string`, one `Char` per byte. -/
abbrev Str := List Char

/-! ## `to_lower_copy` -/

/-- The `tolower` of the "C" locale on one byte: only `A`..`Z` are changed. -/
def tolower (c : Char) : Char :=
  if 65 ≤ c.toNat ∧ c.toNat ≤ 90 then Char.ofNat (c.toNat + 32) else c

/-- `to_lower_copy`: every byte of the copy is replaced by its `tolower`. -/
def to_lower_copy (s : Str) : Str := s.map tolower

/-! ## `std::string::find` -/

/-- `s.find(pat)` searched from offset `i` on: the first position at which `pat`
starts, or `none` for `string::npos`. -/
def find_from (pat : Str) : Str → Nat → Option Nat
  | [], i => if pat = [] then some i else none
  | c :: t, i => if pat.isPrefixOf (c :: t) then some i else find_from pat t (i + 1)

/-- `s.find(pat)`; `none` stands for `string::npos`. -/
def find (s pat : Str) : Option Nat := find_from pat s 0

/-! ## The regular expression of `extract_ip` -/

/-- The part of the ECMAScript grammar that the pattern of `extract_ip` uses. -/
inductive Regex where
  /-- `\b` -/
  | wordBoundary : Regex
  /-- `\d` -/
  | digit : Regex
  /-- an escaped literal character such as `\.` -/
  | char : Char → Regex
  /-- concatenation -/
  | seq : Regex → Regex → Regex
  /-- the greedy bounded quantifier `r{lo,hi}` -/
  | rep : Regex → Nat → Nat → Regex
  /-- a group, capturing `( )` or not `(?: )` -/
  | group : Regex → Regex

/-- The class `\d` in the "C" locale. -/
def isDigit (c : Char) : Bool := decide (48 ≤ c.toNat ∧ c.toNat ≤ 57)

/-- The class `\w` in the "C" locale: letters, digits and the underscore. -/
def isWord (c : Char) : Bool :=
  decide (48 ≤ c.toNat ∧ c.toNat ≤ 57) || decide (65 ≤ c.toNat ∧ c.toNat ≤ 90) ||
    decide (97 ≤ c.toNat ∧ c.toNat ≤ 122) || decide (c.toNat = 95)

/-- Whether the byte at position `i` of `s` exists and satisfies `p`. -/
def charAt (p : Char → Bool) (s : Str) (i : Nat) : Bool :=
  match s[i]? with
  | some c => p c
  | none => false

/-- The assertion `\b` at position `i`: exactly one of the bytes before and at `i`
is a word character (a position outside the string counts as a non-word one). -/
def wordBoundaryAt (s : Str) (i : Nat) : Bool :=
  (decide (i ≠ 0) && charAt isWord s (i - 1)) != charAt isWord s i

/-- The greedy quantifier `{lo,hi}` over a matcher `f`: the end positions reached
from `i`, those of more iterations first. -/
def repEnds (f : Nat → List Nat) : Nat → Nat → Nat → List Nat
  | lo, 0, i => if lo = 0 then [i] else []
  | lo, hi + 1, i =>
    (f i).flatMap (repEnds f (lo - 1) hi) ++ (if lo = 0 then [i] else [])

/-- The backtracking matcher: every position at which a match of `r` that starts
at position `i` of `s` can end, in the order in which backtracking tries them. -/
def matchEnds (s : Str) : Regex → Nat → List Nat
  | Regex.wordBoundary, i => if wordBoundaryAt s i then [i] else []
  | Regex.digit, i => if charAt isDigit s i then [i + 1] else []
  | Regex.char c, i => if charAt (fun d => d == c) s i then [i + 1] else []
  | Regex.seq a b, i => (matchEnds s a i).flatMap (matchEnds s b)
  | Regex.rep r lo hi, i => repEnds (matchEnds s r) lo hi i
  | Regex.group r, i => matchEnds s r i

/-- The loop of `regex_search`: the start positions `i`, `i+1`, ... are tried in
turn (`n` of them are left), and the first one with a match gives `m[0]` as a pair
of positions. -/
def search_from (s : Str) (r : Regex) : Nat → Nat → Option (Nat × Nat)
  | 0, _ => none
  | n + 1, i =>
    match matchEnds s r i with
    | j :: _ => some (i, j)
    | [] => search_from s r n (i + 1)

/-- `regex_search(s, m, r)`: `none` when it returns false, else the bounds of
`m[0]`. Every position from `0` to `s.length` is a possible start. -/
def regex_search (s : Str) (r : Regex) : Option (Nat × Nat) :=
  search_from s r (s.length + 1) 0

/-- The group `\d{1,3}`. -/
def digits13 : Regex := Regex.rep Regex.digit 1 3

/-- The pattern `(\b\d{1,3}(?:\.\d{1,3}){3}\b)` of `extract_ip`. -/
def ipre : Regex :=
  Regex.group
    (Regex.seq Regex.wordBoundary
      (Regex.seq digits13
        (Regex.seq (Regex.rep (Regex.group (Regex.seq (Regex.char '.') digits13)) 3 3)
          Regex.wordBoundary)))

/-- `extract_ip`: the text of the first match of `ipre` in `line`, or `""`. -/
def extract_ip (line : Str) : Str :=
  match regex_search line ipre with
  | some (i, j) => (line.drop i).take (j - i)
  | none => []

/-! ## Data model -/

/-- The struct `Config`. -/
structure Config where
  filename : Str := "system.log".toList
  failed_threshold : Int := 3
  color : Bool := true
  deriving DecidableEq

/-- A `std::unordered_map<string, long long>`: the entries in iteration order. -/
abbrev IpMap := List (Str × Int)

/-- The struct `Counters`. -/
structure Counters where
  failed_logins : Int := 0
  errors : Int := 0
  criticals : Int := 0
  ipCount : IpMap := []
  deriving DecidableEq

/-- The statement `m[k]++`: `operator[]` inserts the key with value `0` when it is
absent, then the value is incremented. -/
def incr : IpMap → Str → IpMap
  | [], k => [(k, 1)]
  | (k', v) :: t, k => if k' = k then (k', v + 1) :: t else (k', v) :: incr t k

/-- The value stored under `k`, if the map has the key. -/
def lookup : IpMap → Str → Option Int
  | [], _ => none
  | (k', v) :: t, k => if k' = k then some v else lookup t k

/-- The six global colour strings. -/
structure Colors where
  RED : Str := "\x1b[31m".toList
  YEL : Str := "\x1b[33m".toList
  GRN : Str := "\x1b[32m".toList
  CYAN : Str := "\x1b[36m".toList
  DIM : Str := "\x1b[2m".toList
  RST : Str := "\x1b[0m".toList
  deriving DecidableEq

/-- The text that `operator<<` writes for a `long long` or an `int`. -/
def put_int : Int → Str
  | Int.ofNat n => Nat.toDigits 10 n
  | Int.negSucc n => '-' :: Nat.toDigits 10 (n + 1)

/-! ## `scan_file` -/

/-- The variables that the `while (getline(fin, line))` loop updates. -/
structure LoopState where
  failed_this : Int := 0
  errors_this : Int := 0
  criticals_this : Int := 0
  ip_this : IpMap := []
  total : Counters := {}
  deriving DecidableEq

/-- The first `if` of the loop body: the failed-login test and the address. -/
def on_failed (st : LoopState) (line lower : Str) : LoopState :=
  if (find lower "failed password".toList).isSome then
    let st1 := { st with
      failed_this := st.failed_this + 1
      total := { st.total with failed_logins := st.total.failed_logins + 1 } }
    let ip := extract_ip line
    if ip ≠ [] then
      { st1 with
        total := { st1.total with ipCount := incr st1.total.ipCount ip }
        ip_this := incr st1.ip_this ip }
    else st1
  else st

/-- The second `if` of the loop body. -/
def on_error (st : LoopState) (lower : Str) : LoopState :=
  if (find lower "error".toList).isSome then
    { st with
      errors_this := st.errors_this + 1
      total := { st.total with errors := st.total.errors + 1 } }
  else st

/-- The third `if` of the loop body. -/
def on_critical (st : LoopState) (lower : Str) : LoopState :=
  if (find lower "critical".toList).isSome then
    { st with
      criticals_this := st.criticals_this + 1
      total := { st.total with criticals := st.total.criticals + 1 } }
  else st

/-- One iteration of the loop, for the line that `getline` has just read. -/
def loop_body (st : LoopState) (line : Str) : LoopState :=
  let lower := to_lower_copy line
  on_critical (on_error (on_failed st line lower) lower) lower

/-- The whole loop over the lines that `getline` yields, from fresh run counters. -/
def scan_loop (lines : List Str) (total : Counters) : LoopState :=
  lines.foldl loop_body { total := total }

/-- The comparator of the `sort` call: `a.second > b.second`. -/
def by_count_desc (a b : Str × Int) : Bool := decide (a.2 > b.2)

/-- Insertion of one element into a list ordered by `comp`: it goes after the
elements that `comp` puts before it. -/
def sort_insert (comp : (Str × Int) → (Str × Int) → Bool) (x : Str × Int) :
    List (Str × Int) → List (Str × Int)
  | [] => [x]
  | y :: t => if comp y x then y :: sort_insert comp x t else x :: y :: t

/-- The call `sort(v.begin(), v.end(), comp)`. The standard leaves the order of
equivalent elements open; this model keeps them in their order in `v`. -/
def sort (comp : (Str × Int) → (Str × Int) → Bool) (v : List (Str × Int)) :
    List (Str × Int) :=
  v.foldr (sort_insert comp) []

/-- The vector `v` of `scan_file` after the `sort` call. -/
def sorted_ips (ip_this : IpMap) : List (Str × Int) := sort by_count_desc ip_this

/-- One line of the address listing. -/
def ip_line (p : Str × Int) : Str :=
  "   ".toList ++ p.1 ++ " \xe2\x86\x92 ".toList ++ put_int p.2 ++ " attempts\n".toList

/-- What `scan_file` prints for the address map: nothing when it is empty. -/
def ip_report (ip_this : IpMap) : Str :=
  if ip_this ≠ [] then
    "\n\xf0\x9f\x94\x8e Suspicious IPs:\n".toList ++ ((sorted_ips ip_this).map ip_line).flatten
  else []

/-- What a call of `scan_file` leaves behind. -/
structure ScanResult where
  /-- the returned `bool` -/
  ret : Bool
  /-- the cumulative counters `total` after the call -/
  total : Counters
  /-- the text written to `alertOut` -/
  alertOut : Str
  /-- the text written to `cout` -/
  cout : Str
  /-- the text written to `cerr` -/
  cerr : Str
  deriving DecidableEq

/-- The line written to `alertOut` when the failed-login threshold fires. -/
def failed_alert (n : Int) : Str :=
  "ALERT: Multiple failed logins (".toList ++ put_int n ++ ")\n".toList

/-- The line written to `alertOut` when there are errors. -/
def error_alert (n : Int) : Str := "ALERT: ".toList ++ put_int n ++ " error(s)\n".toList

/-- The line written to `alertOut` when there are criticals. -/
def critical_alert (n : Int) : Str :=
  "CRITICAL: ".toList ++ put_int n ++ " critical issue(s)\n".toList

/-- The part of `scan_file` after the loop: the report, the three threshold tests,
the address listing and the separator. -/
def report (col : Colors) (cfg : Config) (st : LoopState) : ScanResult :=
  let out0 : Str :=
    "\n----------------------------------\n".toList ++ "Scan Results:\n".toList ++
    "  Failed logins: ".toList ++ put_int st.failed_this ++ "\n".toList ++
    "  Errors:        ".toList ++ put_int st.errors_this ++ "\n".toList ++
    "  Criticals:     ".toList ++ put_int st.criticals_this ++ "\n".toList ++
    "----------------------------------\n".toList
  let f := decide (st.failed_this > cfg.failed_threshold)
  let e := decide (st.errors_this > 0)
  let c := decide (st.criticals_this > 0)
  let out1 : Str := if f then
    col.YEL ++ "\xe2\x9a\xa0\xef\xb8\x8f ALERT: Multiple failed logins (".toList ++
      put_int st.failed_this ++ ")\n".toList ++ col.RST else []
  let log1 : Str := if f then failed_alert st.failed_this else []
  let out2 : Str := if e then
    col.YEL ++ "\xe2\x9a\xa0\xef\xb8\x8f ALERT: ".toList ++ put_int st.errors_this ++
      " error(s)\n".toList ++ col.RST else []
  let log2 : Str := if e then error_alert st.errors_this else []
  let out3 : Str := if c then
    col.RED ++ "\xf0\x9f\x9a\xa8 CRITICAL: ".toList ++ put_int st.criticals_this ++
      " critical issue(s)\n".toList ++ col.RST else []
  let log3 : Str := if c then critical_alert st.criticals_this else []
  let alerted := f || e || c
  let out4 : Str := ip_report st.ip_this
  let out5 : Str := if alerted then
    col.GRN ++ "\xe2\x9c\x85 Alerts saved to alerts.log\n".toList ++ col.RST else []
  let log5 : Str := if alerted then "----\n".toList else []
  { ret := alerted
    total := st.total
    alertOut := log1 ++ log2 ++ log3 ++ log5
    cout := out0 ++ out1 ++ out2 ++ out3 ++ out4 ++ out5
    cerr := [] }

/-- `scan_file(cfg, total, alertOut)`. The argument `fin` is what opening
`cfg.filename` gives: `none` when `fin.is_open()` is false, otherwise the lines
that the successive `getline` calls yield. -/
def scan_file (col : Colors) (cfg : Config) (total : Counters) (fin : Option (List Str)) :
    ScanResult :=
  match fin with
  | none =>
    { ret := false
      total := total
      alertOut := []
      cout := []
      cerr := "\xe2\x9d\x8c Failed to open ".toList ++ cfg.filename ++ "\n".toList }
  | some lines => report col cfg (scan_loop lines total)

/-! ## `parse_args` and `main` -/

/-- The two exceptions that `std::stoi` throws. -/
inductive StoiError where
  | invalid_argument : StoiError
  | out_of_range : StoiError
  deriving DecidableEq

/-- The `isspace` of the "C" locale. -/
def isSpace (c : Char) : Bool := decide (c.toNat = 32 ∨ (9 ≤ c.toNat ∧ c.toNat ≤ 13))

/-- `std::stoi(s)` in base 10: leading white space is skipped, an optional sign
and the longest run of digits are read, and what follows is ignored. Without a
digit it throws `invalid_argument`, outside the range of `int` `out_of_range`. -/
def stoi (s : Str) : Except StoiError Int :=
  let s1 := s.dropWhile isSpace
  let neg : Bool := s1.head? == some '-'
  let s2 := if s1.head? == some '-' || s1.head? == some '+' then s1.drop 1 else s1
  let ds := s2.takeWhile isDigit
  if ds = [] then Except.error StoiError.invalid_argument
  else
    let v : Nat := ds.foldl (fun acc c => acc * 10 + (c.toNat - 48)) 0
    let n : Int := if neg then -(v : Int) else (v : Int)
    if n < -2147483648 ∨ 2147483647 < n then Except.error StoiError.out_of_range
    else Except.ok n

/-- How `parse_args` ends. -/
inductive Parsed where
  /-- the loop ran to its end -/
  | ok : Config → Parsed
  /-- `--help`: the usage text is printed and `exit(0)` is called -/
  | help : Parsed
  /-- `stoi` threw, and nothing catches the exception -/
  | threw : StoiError → Parsed
  deriving DecidableEq

/-- The loop of `parse_args` over `argv[i]`, `argv[i+1]`, ... -/
def parse_loop : List Str → Config → Parsed
  | [], cfg => Parsed.ok cfg
  | [a], cfg =>
    if a = "--no-color".toList then parse_loop [] { cfg with color := false }
    else if a = "--help".toList then Parsed.help
    else parse_loop [] cfg
  | a :: v :: rest, cfg =>
    if a = "--file".toList then parse_loop rest { cfg with filename := v }
    else if a = "--failed".toList then
      match stoi v with
      | Except.ok n => parse_loop rest { cfg with failed_threshold := n }
      | Except.error e => Parsed.threw e
    else if a = "--no-color".toList then parse_loop (v :: rest) { cfg with color := false }
    else if a = "--help".toList then Parsed.help
    else parse_loop (v :: rest) cfg

/-- The call `parse_args(argc, argv, cfg)` on the default `Config`; the loop
starts at `argv[1]`. -/
def parse_args (argv : List Str) : Parsed := parse_loop (argv.drop 1) {}

/-- The global colour strings after `parse_args`: all empty without colour. -/
def colors_of (cfg : Config) : Colors :=
  if cfg.color then {} else
    { RED := [], YEL := [], GRN := [], CYAN := [], DIM := [], RST := [] }

/-- The usage text of `--help`. -/
def usage : Str :=
  "Usage:\n".toList ++ "  ./log_monitor [--file system.log] [--failed 3] [--no-color]\n".toList

/-- What the process finds outside: the lines of each file that can be opened for
reading, and whether `alerts.log` can be opened for appending. -/
structure World where
  open_in : Str → Option (List Str)
  sink_ok : Bool

/-- How the process ends. -/
inductive Outcome where
  /-- `main` returned, or `exit` was called, with this code -/
  | exit : Int → Outcome
  /-- an exception left `main`, so `std::terminate` was called -/
  | terminate : Outcome
  deriving DecidableEq

/-- What a run of the program leaves behind. -/
structure ProcResult where
  outcome : Outcome
  /-- the text written to `cout` -/
  cout : Str
  /-- the text written to `cerr` -/
  cerr : Str
  /-- the text appended to `alerts.log` -/
  sink : Str
  /-- the cumulative counters at the end, when a scan was started -/
  total : Option Counters
  deriving DecidableEq

/-- The function `main`. -/
def main (argv : List Str) (w : World) : ProcResult :=
  match parse_args argv with
  | Parsed.threw _ =>
    { outcome := Outcome.terminate, cout := [], cerr := [], sink := [], total := none }
  | Parsed.help =>
    { outcome := Outcome.exit 0, cout := usage, cerr := [], sink := [], total := none }
  | Parsed.ok cfg =>
    let col := colors_of cfg
    let banner : Str :=
      col.CYAN ++ "[INFO] Starting Log Monitor\n".toList ++ col.RST ++
      "File: ".toList ++ cfg.filename ++ "\n".toList ++
      "Failed-login threshold: ".toList ++ put_int cfg.failed_threshold ++ "\n".toList ++
      "Mode: single-scan\n\n".toList
    if w.sink_ok then
      let r := scan_file col cfg {} (w.open_in cfg.filename)
      { outcome := Outcome.exit 0, cout := banner ++ r.cout, cerr := r.cerr,
        sink := r.alertOut, total := some r.total }
    else
      { outcome := Outcome.exit 1, cout := banner,
        cerr := "\xe2\x9d\x8c Could not open alerts.log\n".toList, sink := [], total := none }

/-! ## Notions of the specification -/

/-- The line contains `pat` as a substring after ASCII lowercasing. -/
def mentions (pat : String) (line : Str) : Bool :=
  decide (pat.toList <:+: to_lower_copy line)

/-- The lines of a text: the pieces between its newline bytes. -/
def text_lines : Str → List Str
  | [] => []
  | c :: t =>
    if c = '\n' then [] :: text_lines t
    else
      match text_lines t with
      | [] => [[c]]
      | l :: ls => (c :: l) :: ls

/-- The alert line of the failed-login threshold, without its newline. -/
def failed_msg (n : Int) : Str :=
  "ALERT: Multiple failed logins (".toList ++ put_int n ++ ")".toList

/-- The alert line of the error count, without its newline. -/
def error_msg (n : Int) : Str := "ALERT: ".toList ++ put_int n ++ " error(s)".toList

/-- The alert line of the critical count, without its newline. -/
def critical_msg (n : Int) : Str :=
  "CRITICAL: ".toList ++ put_int n ++ " critical issue(s)".toList

/-- The separator line, without its newline. -/
def separator : Str := "----".toList

/-- The alert lines that a run with these counts and this threshold fires, in the
order failed-login, error, critical. -/
def fired (failed errors criticals threshold : Int) : List Str :=
  (if failed > threshold then [failed_msg failed] else []) ++
  (if errors > 0 then [error_msg errors] else []) ++
  (if criticals > 0 then [critical_msg criticals] else [])

/-- The text that consists of the given lines, each followed by a newline. -/
def unlines (ls : List Str) : Str := (ls.map (fun l => l ++ ['\n'])).flatten

/-- The number that a text of decimal digits denotes. -/
def decimal_value (s : Str) : Nat := s.foldl (fun a c => 10 * a + (c.toNat - 48)) 0

/-- The byte before a position is a word character. -/
def lastIsWord (pre : Str) : Bool :=
  match pre.getLast? with
  | some c => isWord c
  | none => false

/-- The byte at a position is a word character. -/
def headIsWord (post : Str) : Bool :=
  match post.head? with
  | some c => isWord c
  | none => false

/-- There is a word boundary between the text `pre` and the text `post`. -/
def Boundary (pre post : Str) : Prop := lastIsWord pre ≠ headIsWord post

instance (pre post : Str) : Decidable (Boundary pre post) :=
  inferInstanceAs (Decidable (lastIsWord pre ≠ headIsWord post))

/-- Iteration of a match relation `D`, `n` times in a row. -/
def DenIter (D : Str → Str → Str → Prop) : Nat → Str → Str → Str → Prop
  | 0, _, m, _ => m = []
  | n + 1, pre, m, post =>
    ∃ m1 m2, m = m1 ++ m2 ∧ D pre m1 (m2 ++ post) ∧ DenIter D n (pre ++ m1) m2 post

/-- The match relation of a regular expression: `r` matches the text `m` when
`pre` stands before it and `post` after it. -/
def Den : Regex → Str → Str → Str → Prop
  | Regex.wordBoundary, pre, m, post => m = [] ∧ Boundary pre post
  | Regex.digit, _, m, _ => ∃ c, m = [c] ∧ isDigit c = true
  | Regex.char c, _, m, _ => m = [c]
  | Regex.seq a b, pre, m, post =>
    ∃ m1 m2, m = m1 ++ m2 ∧ Den a pre m1 (m2 ++ post) ∧ Den b (pre ++ m1) m2 post
  | Regex.rep r lo hi, pre, m, post => ∃ n, lo ≤ n ∧ n ≤ hi ∧ DenIter (Den r) n pre m post
  | Regex.group r, pre, m, post => Den r pre m post

/-- A group of one to three decimal digits. -/
def IsGroup (g : Str) : Prop := 1 ≤ g.length ∧ g.length ≤ 3 ∧ ∀ c ∈ g, isDigit c = true

instance (g : Str) : Decidable (IsGroup g) :=
  inferInstanceAs (Decidable (1 ≤ g.length ∧ g.length ≤ 3 ∧ ∀ c ∈ g, isDigit c = true))

/-- Four groups of one to three digits, separated by single periods. -/
def QuadShape (m : Str) : Prop :=
  ∃ g1 g2 g3 g4 : Str, IsGroup g1 ∧ IsGroup g2 ∧ IsGroup g3 ∧ IsGroup g4 ∧
    m = g1 ++ ['.'] ++ g2 ++ ['.'] ++ g3 ++ ['.'] ++ g4

/-- The text `m`, standing between `pre` and `post`, is a dotted quad with a word
boundary on each side. -/
def IsQuadOccurrence (pre m post : Str) : Prop :=
  QuadShape m ∧ Boundary pre (m ++ post) ∧ Boundary (pre ++ m) post

/-- The text `m` occurs in `line` as a dotted quad between word boundaries, with
`pre` before it and `post` after it. -/
def OccursAt (line pre m post : Str) : Prop :=
  line = pre ++ m ++ post ∧ IsQuadOccurrence pre m post

/-- The four arguments that `parse_args` knows. -/
def is_flag (a : Str) : Bool :=
  a == "--file".toList || a == "--failed".toList || a == "--no-color".toList ||
    a == "--help".toList

/-- The count that the map holds for an address: 0 when it has no entry. -/
def count_of (m : IpMap) (k : Str) : Int := (lookup m k).getD 0

/-- The addresses that a scan of the lines counts, one per failed-login line with a
dotted quad, in the order of the lines. -/
def hit_keys (lines : List Str) : List Str :=
  lines.filterMap (fun l =>
    if mentions "failed password" l = true ∧ extract_ip l ≠ [] then some (extract_ip l)
    else none)

/-- The sum of the counts that the map stores. -/
def sum_counts (m : IpMap) : Int := (m.map Prod.snd).sum

/-- The other-case counterpart of an ASCII letter; any other byte is left alone. -/
def swap_case (c : Char) : Char :=
  if 65 ≤ c.toNat ∧ c.toNat ≤ 90 then Char.ofNat (c.toNat + 32)
  else if 97 ≤ c.toNat ∧ c.toNat ≤ 122 then Char.ofNat (c.toNat - 32)
  else c

/-- Whether the text `b` is the text `a` with some of its ASCII letters replaced by
their other-case counterparts. -/
def case_variant : Str → Str → Bool
  | [], [] => true
  | c :: s, d :: t => (d == c || d == swap_case c) && case_variant s t
  | _, _ => false

/-- Whether the file `b` is the file `a` with some ASCII letters of its lines
replaced by their other-case counterparts. -/
def case_variant_file : List Str → List Str → Bool
  | [], [] => true
  | l :: ls, m :: ms => case_variant l m && case_variant_file ls ms
  | _, _ => false

/-! ## Lemmas on `find` -/

theorem find_from_isSome (pat : Str) (s : Str) (i : Nat) :
    (find_from pat s i).isSome = true ↔ pat <:+: s := by
  induction s generalizing i with
  | nil =>
    by_cases h : pat = [] <;> simp [find_from, h]
  | cons c t ih =>
    unfold find_from
    by_cases h : pat.isPrefixOf (c :: t) = true
    · have h2 : pat <+: c :: t := List.isPrefixOf_iff_prefix.mp h
      simp only [h, if_true, Option.isSome_some, true_iff]
      exact h2.isInfix
    · have h2 : ¬ pat <+: c :: t := fun hp => h (List.isPrefixOf_iff_prefix.mpr hp)
      simp only [h, Bool.false_eq_true, if_false]
      rw [ih, List.infix_cons_iff]
      simp [h2]

theorem find_isSome (s : Str) (pat : String) :
    (find (to_lower_copy s) pat.toList).isSome = mentions pat s := by
  rw [Bool.eq_iff_iff, find, find_from_isSome, mentions, decide_eq_true_iff]

/-! ## Lemmas on the loop -/

theorem loop_body_failed_this (st : LoopState) (line : Str) :
    (loop_body st line).failed_this =
      st.failed_this + (if mentions "failed password" line then 1 else 0) := by
  simp only [loop_body, on_critical, on_error, on_failed, find_isSome]
  split_ifs <;> simp

theorem loop_body_errors_this (st : LoopState) (line : Str) :
    (loop_body st line).errors_this =
      st.errors_this + (if mentions "error" line then 1 else 0) := by
  simp only [loop_body, on_critical, on_error, on_failed, find_isSome]
  split_ifs <;> simp

theorem loop_body_criticals_this (st : LoopState) (line : Str) :
    (loop_body st line).criticals_this =
      st.criticals_this + (if mentions "critical" line then 1 else 0) := by
  simp only [loop_body, on_critical, on_error, on_failed, find_isSome]
  split_ifs <;> simp

theorem loop_body_ip_this (st : LoopState) (line : Str) :
    (loop_body st line).ip_this =
      if mentions "failed password" line = true ∧ extract_ip line ≠ [] then
        incr st.ip_this (extract_ip line)
      else st.ip_this := by
  simp only [loop_body, on_critical, on_error, on_failed, find_isSome]
  split_ifs <;> simp_all

theorem foldl_failed_this (lines : List Str) (st : LoopState) :
    (lines.foldl loop_body st).failed_this =
      st.failed_this + (lines.countP (mentions "failed password") : Nat) := by
  induction lines generalizing st with
  | nil => simp
  | cons l ls ih =>
    rw [List.foldl_cons, ih, loop_body_failed_this, List.countP_cons]
    split_ifs <;> simp_all
    omega

theorem foldl_errors_this (lines : List Str) (st : LoopState) :
    (lines.foldl loop_body st).errors_this =
      st.errors_this + (lines.countP (mentions "error") : Nat) := by
  induction lines generalizing st with
  | nil => simp
  | cons l ls ih =>
    rw [List.foldl_cons, ih, loop_body_errors_this, List.countP_cons]
    split_ifs <;> simp_all
    omega

theorem foldl_criticals_this (lines : List Str) (st : LoopState) :
    (lines.foldl loop_body st).criticals_this =
      st.criticals_this + (lines.countP (mentions "critical") : Nat) := by
  induction lines generalizing st with
  | nil => simp
  | cons l ls ih =>
    rw [List.foldl_cons, ih, loop_body_criticals_this, List.countP_cons]
    split_ifs <;> simp_all
    omega

theorem scan_loop_failed_this (lines : List Str) (total : Counters) :
    (scan_loop lines total).failed_this = (lines.countP (mentions "failed password") : Nat) := by
  rw [scan_loop, foldl_failed_this]; simp

theorem scan_loop_errors_this (lines : List Str) (total : Counters) :
    (scan_loop lines total).errors_this = (lines.countP (mentions "error") : Nat) := by
  rw [scan_loop, foldl_errors_this]; simp

theorem scan_loop_criticals_this (lines : List Str) (total : Counters) :
    (scan_loop lines total).criticals_this = (lines.countP (mentions "critical") : Nat) := by
  rw [scan_loop, foldl_criticals_this]; simp

/-! ## Lemmas on the written text -/

theorem isDigit_digitChar (n : Nat) (h : n < 10) : isDigit (Nat.digitChar n) = true := by
  interval_cases n <;> decide

theorem toDigitsCore_isDigit (f n : Nat) (acc : List Char)
    (h : ∀ c ∈ acc, isDigit c = true) :
    ∀ c ∈ Nat.toDigitsCore 10 f n acc, isDigit c = true := by
  induction f generalizing n acc with
  | zero => simpa [Nat.toDigitsCore] using h
  | succ f ih =>
    have hd : ∀ c ∈ Nat.digitChar (n % 10) :: acc, isDigit c = true := by
      intro c hc
      rcases List.mem_cons.mp hc with rfl | hc
      · exact isDigit_digitChar _ (Nat.mod_lt _ (by decide))
      · exact h c hc
    unfold Nat.toDigitsCore
    dsimp only
    split_ifs
    · exact hd
    · exact ih _ _ hd

theorem toDigitsCore_ne_nil (f n : Nat) (acc : List Char) (h : acc ≠ []) :
    Nat.toDigitsCore 10 f n acc ≠ [] := by
  induction f generalizing n acc with
  | zero => simpa [Nat.toDigitsCore] using h
  | succ f ih =>
    unfold Nat.toDigitsCore
    dsimp only
    split_ifs
    · simp
    · exact ih _ _ (by simp)

theorem toDigits_ne_nil (n : Nat) : Nat.toDigits 10 n ≠ [] := by
  unfold Nat.toDigits Nat.toDigitsCore
  dsimp only
  split_ifs
  · simp
  · exact toDigitsCore_ne_nil _ _ _ (by simp)

theorem put_int_ne_nil (n : Int) : put_int n ≠ [] := by
  cases n with
  | ofNat k => exact toDigits_ne_nil k
  | negSucc k => simp [put_int]

theorem put_int_chars (n : Int) : ∀ c ∈ put_int n, isDigit c = true ∨ c = '-' := by
  cases n with
  | ofNat k =>
    intro c hc
    exact Or.inl (toDigitsCore_isDigit _ _ [] (by simp) c hc)
  | negSucc k =>
    intro c hc
    rcases List.mem_cons.mp hc with rfl | hc
    · exact Or.inr rfl
    · exact Or.inl (toDigitsCore_isDigit _ _ [] (by simp) c hc)

theorem newline_not_mem_put_int (n : Int) : '\n' ∉ put_int n := by
  intro h
  rcases put_int_chars n _ h with h | h
  · exact absurd h (by decide)
  · exact absurd h (by decide)

theorem put_int_head (n : Int) :
    ∃ c t, put_int n = c :: t ∧ (isDigit c = true ∨ c = '-') := by
  cases h : put_int n with
  | nil => exact absurd h (put_int_ne_nil n)
  | cons c t => exact ⟨c, t, rfl, put_int_chars n c (by simp [h])⟩

theorem digitChar_toNat (n : Nat) (h : n < 10) : (Nat.digitChar n).toNat - 48 = n := by
  interval_cases n <;> rfl

theorem toDigitsCore_split (f : Nat) : ∀ (n : Nat) (acc : List Char), n < f →
    ∃ d : List Char, Nat.toDigitsCore 10 f n acc = d ++ acc ∧ decimal_value d = n := by
  induction f with
  | zero => intro n acc h; omega
  | succ f ih =>
    intro n acc h
    unfold Nat.toDigitsCore
    dsimp only
    split_ifs with h0
    · refine ⟨[Nat.digitChar (n % 10)], rfl, ?_⟩
      have hn : n < 10 := by omega
      simp only [decimal_value, List.foldl_cons, List.foldl_nil, Nat.mul_zero, Nat.zero_add]
      rw [digitChar_toNat _ (Nat.mod_lt _ (by decide))]
      exact Nat.mod_eq_of_lt hn
    · obtain ⟨d, hd, hv⟩ := ih (n / 10) (Nat.digitChar (n % 10) :: acc) (by omega)
      refine ⟨d ++ [Nat.digitChar (n % 10)], by rw [hd]; simp, ?_⟩
      simp only [decimal_value, List.foldl_append, List.foldl_cons, List.foldl_nil] at hv ⊢
      rw [hv, digitChar_toNat _ (Nat.mod_lt _ (by decide))]
      omega

/-- Reading back the digits that `operator<<` writes for a count gives the count. -/
theorem decimal_value_put_int (n : Nat) : decimal_value (put_int (n : Int)) = n := by
  obtain ⟨d, hd, hv⟩ := toDigitsCore_split (n + 1) n [] (by omega)
  have e : put_int (n : Int) = Nat.toDigits 10 n := rfl
  rw [e, Nat.toDigits, hd, List.append_nil, hv]

theorem text_lines_line (l rest : Str) (h : '\n' ∉ l) :
    text_lines (l ++ '\n' :: rest) = l :: text_lines rest := by
  induction l with
  | nil => simp [text_lines]
  | cons c t ih =>
    have hc : c ≠ '\n' := fun e => h (by simp [e])
    have ht : '\n' ∉ t := fun e => h (by simp [e])
    simp [text_lines, hc, ih ht]

theorem failed_alert_eq (n : Int) : failed_alert n = failed_msg n ++ ['\n'] := by
  simp [failed_alert, failed_msg]

theorem error_alert_eq (n : Int) : error_alert n = error_msg n ++ ['\n'] := by
  simp [error_alert, error_msg]

theorem critical_alert_eq (n : Int) : critical_alert n = critical_msg n ++ ['\n'] := by
  simp [critical_alert, critical_msg]

theorem newline_not_mem_failed_msg (n : Int) : '\n' ∉ failed_msg n := by
  have := newline_not_mem_put_int n
  simp [failed_msg, this]

theorem newline_not_mem_error_msg (n : Int) : '\n' ∉ error_msg n := by
  have := newline_not_mem_put_int n
  simp [error_msg, this]

theorem newline_not_mem_critical_msg (n : Int) : '\n' ∉ critical_msg n := by
  have := newline_not_mem_put_int n
  simp [critical_msg, this]

theorem text_lines_unlines (ls : List Str) (h : ∀ l ∈ ls, '\n' ∉ l) :
    text_lines (unlines ls) = ls := by
  induction ls with
  | nil => simp [unlines, text_lines]
  | cons l t ih =>
    have h1 : '\n' ∉ l := h l (by simp)
    have h2 : ∀ l ∈ t, '\n' ∉ l := fun x hx => h x (by simp [hx])
    have e : unlines (l :: t) = l ++ '\n' :: unlines t := by simp [unlines]
    rw [e, text_lines_line _ _ h1, ih h2]

theorem newline_not_mem_fired (f e c t : Int) : ∀ l ∈ fired f e c t, '\n' ∉ l := by
  intro l hl
  simp only [fired, List.mem_append] at hl
  rcases hl with (hl | hl) | hl
  · split_ifs at hl
    · rw [List.mem_singleton.mp hl]; exact newline_not_mem_failed_msg f
    · simp at hl
  · split_ifs at hl
    · rw [List.mem_singleton.mp hl]; exact newline_not_mem_error_msg e
    · simp at hl
  · split_ifs at hl
    · rw [List.mem_singleton.mp hl]; exact newline_not_mem_critical_msg c
    · simp at hl

/-- The threshold section of `scan_file` writes the fired lines, and the
separator after them when there is one. -/
theorem report_alertOut (col : Colors) (cfg : Config) (st : LoopState) :
    (report col cfg st).alertOut =
      unlines (fired st.failed_this st.errors_this st.criticals_this cfg.failed_threshold ++
        (if fired st.failed_this st.errors_this st.criticals_this cfg.failed_threshold = []
          then [] else [separator])) := by
  simp only [report, fired, failed_alert_eq, error_alert_eq, critical_alert_eq, unlines,
    separator]
  by_cases hf : st.failed_this > cfg.failed_threshold <;>
  by_cases he : st.errors_this > 0 <;>
  by_cases hc : st.criticals_this > 0 <;>
  simp [hf, he, hc]

theorem report_ret (col : Colors) (cfg : Config) (st : LoopState) :
    (report col cfg st).ret =
      decide (fired st.failed_this st.errors_this st.criticals_this cfg.failed_threshold ≠ []) := by
  simp only [report, fired]
  by_cases hf : st.failed_this > cfg.failed_threshold <;>
  by_cases he : st.errors_this > 0 <;>
  by_cases hc : st.criticals_this > 0 <;>
  simp [hf, he, hc]

theorem failed_msg_ne_error_msg (n m : Int) : failed_msg n ≠ error_msg m := by
  intro h
  obtain ⟨c, t, hm, hc⟩ := put_int_head m
  have e1 : "ALERT: Multiple failed logins (".toList =
      "ALERT: ".toList ++ 'M' :: "ultiple failed logins (".toList := by decide
  simp only [failed_msg, error_msg, e1, hm, List.append_assoc, List.cons_append] at h
  have h2 := List.append_cancel_left h
  simp at h2
  obtain ⟨rfl, _⟩ := h2
  revert hc; decide

theorem failed_msg_ne_critical_msg (n m : Int) : failed_msg n ≠ critical_msg m := by
  intro h
  have := congrArg List.head? h
  revert this
  simp [failed_msg, critical_msg]

theorem error_msg_ne_critical_msg (n m : Int) : error_msg n ≠ critical_msg m := by
  intro h
  have := congrArg List.head? h
  revert this
  simp [error_msg, critical_msg]

theorem failed_msg_ne_separator (n : Int) : failed_msg n ≠ separator := by
  intro h
  have := congrArg List.head? h
  revert this
  simp [failed_msg, separator]

theorem error_msg_ne_separator (n : Int) : error_msg n ≠ separator := by
  intro h
  have := congrArg List.head? h
  revert this
  simp [error_msg, separator]

theorem critical_msg_ne_separator (n : Int) : critical_msg n ≠ separator := by
  intro h
  have := congrArg List.head? h
  revert this
  simp [critical_msg, separator]

theorem separator_not_mem_fired (f e c t : Int) : separator ∉ fired f e c t := by
  intro hl
  simp only [fired, List.mem_append] at hl
  rcases hl with (hl | hl) | hl
  · split_ifs at hl
    · exact failed_msg_ne_separator f (List.mem_singleton.mp hl).symm
    · simp at hl
  · split_ifs at hl
    · exact error_msg_ne_separator e (List.mem_singleton.mp hl).symm
    · simp at hl
  · split_ifs at hl
    · exact critical_msg_ne_separator c (List.mem_singleton.mp hl).symm
    · simp at hl

/-- The lines of the text that the threshold section writes. -/
theorem text_lines_report (col : Colors) (cfg : Config) (st : LoopState) :
    text_lines (report col cfg st).alertOut =
      fired st.failed_this st.errors_this st.criticals_this cfg.failed_threshold ++
        (if fired st.failed_this st.errors_this st.criticals_this cfg.failed_threshold = []
          then [] else [separator]) := by
  rw [report_alertOut, text_lines_unlines]
  intro l hl
  rcases List.mem_append.mp hl with hl | hl
  · exact newline_not_mem_fired _ _ _ _ l hl
  · split_ifs at hl
    · simp at hl
    · rw [List.mem_singleton.mp hl]; decide

theorem mem_fired (f e c t : Int) (l : Str) :
    l ∈ fired f e c t ↔
      (f > t ∧ l = failed_msg f) ∨ (e > 0 ∧ l = error_msg e) ∨ (c > 0 ∧ l = critical_msg c) := by
  by_cases hf : f > t <;> by_cases he : e > 0 <;> by_cases hc : c > 0 <;>
    simp [fired, hf, he, hc]

theorem mem_text_lines_report (col : Colors) (cfg : Config) (st : LoopState) (l : Str) :
    l ∈ text_lines (report col cfg st).alertOut ↔
      l ∈ fired st.failed_this st.errors_this st.criticals_this cfg.failed_threshold ∨
      (fired st.failed_this st.errors_this st.criticals_this cfg.failed_threshold ≠ [] ∧
        l = separator) := by
  rw [text_lines_report, List.mem_append]
  by_cases h : fired st.failed_this st.errors_this st.criticals_this cfg.failed_threshold = []
  · simp [h]
  · simp [h]

theorem failed_msg_mem_iff (col : Colors) (cfg : Config) (st : LoopState) (n : Int) :
    failed_msg n ∈ text_lines (report col cfg st).alertOut ↔
      failed_msg n = failed_msg st.failed_this ∧ st.failed_this > cfg.failed_threshold := by
  rw [mem_text_lines_report, mem_fired]
  constructor
  · rintro ((h | h | h) | h)
    · exact ⟨h.2, h.1⟩
    · exact absurd h.2 (failed_msg_ne_error_msg _ _)
    · exact absurd h.2 (failed_msg_ne_critical_msg _ _)
    · exact absurd h.2 (failed_msg_ne_separator _)
  · rintro ⟨he, hf⟩
    exact Or.inl (Or.inl ⟨hf, he⟩)

theorem error_msg_mem_iff (col : Colors) (cfg : Config) (st : LoopState) (n : Int) :
    error_msg n ∈ text_lines (report col cfg st).alertOut ↔
      error_msg n = error_msg st.errors_this ∧ st.errors_this > 0 := by
  rw [mem_text_lines_report, mem_fired]
  constructor
  · rintro ((h | h | h) | h)
    · exact absurd h.2.symm (failed_msg_ne_error_msg _ _)
    · exact ⟨h.2, h.1⟩
    · exact absurd h.2 (error_msg_ne_critical_msg _ _)
    · exact absurd h.2 (error_msg_ne_separator _)
  · rintro ⟨he, hf⟩
    exact Or.inl (Or.inr (Or.inl ⟨hf, he⟩))

theorem critical_msg_mem_iff (col : Colors) (cfg : Config) (st : LoopState) (n : Int) :
    critical_msg n ∈ text_lines (report col cfg st).alertOut ↔
      critical_msg n = critical_msg st.criticals_this ∧ st.criticals_this > 0 := by
  rw [mem_text_lines_report, mem_fired]
  constructor
  · rintro ((h | h | h) | h)
    · exact absurd h.2.symm (failed_msg_ne_critical_msg _ _)
    · exact absurd h.2.symm (error_msg_ne_critical_msg _ _)
    · exact ⟨h.2, h.1⟩
    · exact absurd h.2 (critical_msg_ne_separator _)
  · rintro ⟨he, hf⟩
    exact Or.inl (Or.inr (Or.inr ⟨hf, he⟩))

/-! ## Lemmas on the cumulative counters and on repeated scans -/

theorem loop_body_total_failed (st : LoopState) (line : Str) :
    (loop_body st line).total.failed_logins =
      st.total.failed_logins + (if mentions "failed password" line then 1 else 0) := by
  simp only [loop_body, on_critical, on_error, on_failed, find_isSome]
  split_ifs <;> simp

theorem foldl_total_failed (lines : List Str) (st : LoopState) :
    (lines.foldl loop_body st).total.failed_logins =
      st.total.failed_logins + (lines.countP (mentions "failed password") : Nat) := by
  induction lines generalizing st with
  | nil => simp
  | cons l ls ih =>
    rw [List.foldl_cons, ih, loop_body_total_failed, List.countP_cons]
    split_ifs <;> simp_all
    omega

theorem foldl_ip_this (lines : List Str) (st1 st2 : LoopState)
    (h : st1.ip_this = st2.ip_this) :
    (lines.foldl loop_body st1).ip_this = (lines.foldl loop_body st2).ip_this := by
  induction lines generalizing st1 st2 with
  | nil => simpa using h
  | cons l ls ih =>
    rw [List.foldl_cons, List.foldl_cons]
    apply ih
    rw [loop_body_ip_this, loop_body_ip_this, h]

/-- The run-scoped variables after the loop do not depend on the cumulative
counters that the loop started with. -/
theorem scan_loop_run_indep (lines : List Str) (t1 t2 : Counters) :
    (scan_loop lines t1).failed_this = (scan_loop lines t2).failed_this ∧
    (scan_loop lines t1).errors_this = (scan_loop lines t2).errors_this ∧
    (scan_loop lines t1).criticals_this = (scan_loop lines t2).criticals_this ∧
    (scan_loop lines t1).ip_this = (scan_loop lines t2).ip_this := by
  refine ⟨?_, ?_, ?_, ?_⟩
  · rw [scan_loop_failed_this, scan_loop_failed_this]
  · rw [scan_loop_errors_this, scan_loop_errors_this]
  · rw [scan_loop_criticals_this, scan_loop_criticals_this]
  · exact foldl_ip_this lines _ _ rfl

/-- What `report` writes and returns is fixed by the run-scoped variables. -/
theorem report_congr (col : Colors) (cfg : Config) (st1 st2 : LoopState)
    (hf : st1.failed_this = st2.failed_this) (he : st1.errors_this = st2.errors_this)
    (hc : st1.criticals_this = st2.criticals_this) (hi : st1.ip_this = st2.ip_this) :
    (report col cfg st1).ret = (report col cfg st2).ret ∧
    (report col cfg st1).alertOut = (report col cfg st2).alertOut ∧
    (report col cfg st1).cout = (report col cfg st2).cout ∧
    (report col cfg st1).cerr = (report col cfg st2).cerr := by
  simp only [report, hf, he, hc, hi, and_self]

/-! ## Lemmas on the address map and on `sort` -/

theorem incr_keys (m : IpMap) (k : Str) :
    (incr m k).map Prod.fst =
      if k ∈ m.map Prod.fst then m.map Prod.fst else m.map Prod.fst ++ [k] := by
  induction m with
  | nil => simp [incr]
  | cons p t ih =>
    obtain ⟨k', v⟩ := p
    by_cases h : k' = k
    · simp [incr, h]
    · have h2 : ¬ k = k' := fun e => h e.symm
      by_cases hm : k ∈ t.map Prod.fst
      · simp only [incr, h, if_false, List.map_cons, ih, hm, if_true, List.mem_cons, or_true]
      · simp only [incr, h, if_false, List.map_cons, ih, hm, List.mem_cons, h2, or_self,
          List.cons_append]

theorem incr_keys_nodup (m : IpMap) (k : Str) (h : (m.map Prod.fst).Nodup) :
    ((incr m k).map Prod.fst).Nodup := by
  rw [incr_keys]
  split_ifs with hk
  · exact h
  · rw [List.nodup_append]
    refine ⟨h, List.nodup_singleton k, ?_⟩
    intro a ha hb
    rw [List.mem_singleton] at hb
    exact hk (hb ▸ ha)

theorem foldl_ip_this_nodup (lines : List Str) (st : LoopState)
    (h : (st.ip_this.map Prod.fst).Nodup) :
    (((lines.foldl loop_body st).ip_this).map Prod.fst).Nodup := by
  induction lines generalizing st with
  | nil => simpa using h
  | cons l ls ih =>
    rw [List.foldl_cons]
    apply ih
    rw [loop_body_ip_this]
    split_ifs
    · exact incr_keys_nodup _ _ h
    · exact h

theorem scan_loop_ip_this_nodup (lines : List Str) (total : Counters) :
    (((scan_loop lines total).ip_this).map Prod.fst).Nodup :=
  foldl_ip_this_nodup lines _ (by simp)

theorem sort_insert_perm (comp : (Str × Int) → (Str × Int) → Bool) (x : Str × Int)
    (l : List (Str × Int)) : (sort_insert comp x l).Perm (x :: l) := by
  induction l with
  | nil => simp [sort_insert]
  | cons y t ih =>
    unfold sort_insert
    split_ifs
    · exact (List.Perm.cons y ih).trans (List.Perm.swap x y t)
    · exact List.Perm.refl _

theorem sort_perm (comp : (Str × Int) → (Str × Int) → Bool) (v : List (Str × Int)) :
    (sort comp v).Perm v := by
  induction v with
  | nil => simp [sort]
  | cons x t ih =>
    have e : sort comp (x :: t) = sort_insert comp x (sort comp t) := rfl
    rw [e]
    exact (sort_insert_perm comp x _).trans (List.Perm.cons x ih)

theorem sort_insert_pairwise (x : Str × Int) (l : List (Str × Int))
    (h : l.Pairwise (fun a b => a.2 ≥ b.2)) :
    (sort_insert by_count_desc x l).Pairwise (fun a b => a.2 ≥ b.2) := by
  induction l with
  | nil => simp [sort_insert]
  | cons y t ih =>
    rw [List.pairwise_cons] at h
    unfold sort_insert
    split_ifs with hc
    · rw [List.pairwise_cons]
      refine ⟨?_, ih h.2⟩
      intro b hb
      rcases List.mem_cons.mp ((sort_insert_perm by_count_desc x t).mem_iff.mp hb) with rfl | hb
      · simp only [by_count_desc, decide_eq_true_eq] at hc
        omega
      · exact h.1 b hb
    · simp only [by_count_desc, decide_eq_true_eq] at hc
      rw [List.pairwise_cons, List.pairwise_cons]
      refine ⟨?_, h⟩
      intro b hb
      rcases List.mem_cons.mp hb with rfl | hb
      · omega
      · have := h.1 b hb
        omega

theorem sort_pairwise (v : List (Str × Int)) :
    (sort by_count_desc v).Pairwise (fun a b => a.2 ≥ b.2) := by
  induction v with
  | nil => simp [sort]
  | cons x t ih =>
    have e : sort by_count_desc (x :: t) = sort_insert by_count_desc x (sort by_count_desc t) :=
      rfl
    rw [e]
    exact sort_insert_pairwise x _ ih

/-- A list that holds the two entries `a` and `b` in non-increasing order of count
starts with `b` when `a` has the smaller count. -/
theorem perm_pair_sorted (a b : Str × Int) (v : List (Str × Int)) (hp : v.Perm [a, b])
    (hs : v.Pairwise (fun x y => x.2 ≥ y.2)) (hab : a.2 < b.2) : v = [b, a] := by
  have hl : v.length = 2 := by simpa using hp.length_eq
  match v, hl with
  | [x, y], _ =>
    have hxy : x.2 ≥ y.2 := by
      rw [List.pairwise_cons] at hs
      exact hs.1 y (by simp)
    have hx : x = a ∨ x = b := by simpa using hp.mem_iff.mp (List.mem_cons_self x [y])
    rcases hx with rfl | rfl
    · have h2 : [y].Perm [b] := (List.perm_cons x).mp hp
      have hy : y = b := by simpa using h2.mem_iff.mp (List.mem_singleton_self y)
      subst hy
      omega
    · have h2 : [y].Perm [a] := (List.perm_cons x).mp (hp.trans (List.Perm.swap x a []))
      have hy : y = a := by simpa using h2.mem_iff.mp (List.mem_singleton_self y)
      rw [hy]

/-! ## Lemmas on the matcher and on `extract_ip` -/

theorem head_at_length_append (pre rest : Str) :
    (pre ++ rest)[pre.length]? = rest.head? := by
  rw [List.getElem?_append_right (le_refl _)]
  cases rest <;> simp

theorem charAt_length_append (p : Char → Bool) (pre rest : Str) :
    charAt p (pre ++ rest) pre.length = (match rest.head? with | some c => p c | none => false) := by
  unfold charAt
  rw [head_at_length_append]

theorem charAt_pred_append (p : Char → Bool) (pre rest : Str) :
    (decide (pre.length ≠ 0) && charAt p (pre ++ rest) (pre.length - 1)) =
      (match pre.getLast? with | some c => p c | none => false) := by
  rcases List.eq_nil_or_concat pre with rfl | ⟨t, c, rfl⟩
  · simp
  · have h := charAt_length_append p t (c :: rest)
    simp only [List.concat_eq_append, List.length_append, List.length_singleton,
      Nat.add_sub_cancel, List.append_assoc, List.singleton_append, h]
    simp

theorem wordBoundaryAt_append (pre rest : Str) :
    wordBoundaryAt (pre ++ rest) pre.length = true ↔ Boundary pre rest := by
  unfold wordBoundaryAt Boundary lastIsWord headIsWord
  rw [charAt_pred_append, charAt_length_append]
  simp

theorem repEnds_iff (s : Str) (f : Nat → List Nat) (D : Str → Str → Str → Prop)
    (hf : ∀ pre rest j, s = pre ++ rest →
      (j ∈ f pre.length ↔ ∃ m post, rest = m ++ post ∧ j = pre.length + m.length ∧ D pre m post))
    (hi : Nat) : ∀ (lo : Nat) (pre rest : Str) (j : Nat), s = pre ++ rest →
      (j ∈ repEnds f lo hi pre.length ↔
        ∃ m post, rest = m ++ post ∧ j = pre.length + m.length ∧
          ∃ n, lo ≤ n ∧ n ≤ hi ∧ DenIter D n pre m post) := by
  induction hi with
  | zero =>
    intro lo pre rest j _
    unfold repEnds
    constructor
    · intro h
      split_ifs at h with hlo
      · rw [List.mem_singleton] at h
        exact ⟨[], rest, rfl, by simpa using h, 0, by omega, le_refl _, rfl⟩
      · simp at h
    · rintro ⟨m, post, _, hj, n, h1, h2, hD⟩
      have hn : n = 0 := by omega
      subst hn
      have hm : m = [] := hD
      subst hm
      have hlo : lo = 0 := by omega
      simp [hlo, hj]
  | succ hi ih =>
    intro lo pre rest j hs
    unfold repEnds
    rw [List.mem_append, List.mem_flatMap]
    constructor
    · rintro (⟨k, hk, hj⟩ | h)
      · obtain ⟨m1, post1, hrest, hk2, hD1⟩ := (hf pre rest k hs).mp hk
        have hs2 : s = (pre ++ m1) ++ post1 := by rw [hs, hrest, List.append_assoc]
        have hk3 : k = (pre ++ m1).length := by rw [List.length_append]; exact hk2
        rw [hk3] at hj
        obtain ⟨m2, post, hpost1, hj2, n, h1, h2, hD2⟩ := (ih (lo - 1) (pre ++ m1) post1 j hs2).mp hj
        refine ⟨m1 ++ m2, post, ?_, ?_, n + 1, by omega, by omega, m1, m2, rfl, ?_, hD2⟩
        · rw [hrest, hpost1, List.append_assoc]
        · rw [hj2]; simp only [List.length_append]; omega
        · rw [← hpost1]; exact hD1
      · split_ifs at h with hlo
        · rw [List.mem_singleton] at h
          exact ⟨[], rest, rfl, by simpa using h, 0, by omega, by omega, rfl⟩
        · simp at h
    · rintro ⟨m, post, hrest, hj, n, h1, h2, hD⟩
      cases n with
      | zero =>
        have hm : m = [] := hD
        subst hm
        have hlo : lo = 0 := by omega
        right
        simp [hlo, hj]
      | succ n =>
        obtain ⟨m1, m2, hm, hD1, hD2⟩ := hD
        left
        refine ⟨pre.length + m1.length, ?_, ?_⟩
        · exact (hf pre rest _ hs).mpr ⟨m1, m2 ++ post, by rw [hrest, hm, List.append_assoc], rfl, hD1⟩
        · have hs2 : s = (pre ++ m1) ++ (m2 ++ post) := by
            rw [hs, hrest, hm, List.append_assoc, List.append_assoc]
          have := (ih (lo - 1) (pre ++ m1) (m2 ++ post) j hs2).mpr
            ⟨m2, post, rfl, by rw [hj, hm]; simp only [List.length_append]; omega,
              n, by omega, by omega, hD2⟩
          rwa [List.length_append] at this

theorem matchEnds_iff (s : Str) (r : Regex) : ∀ (pre rest : Str) (j : Nat), s = pre ++ rest →
    (j ∈ matchEnds s r pre.length ↔
      ∃ m post, rest = m ++ post ∧ j = pre.length + m.length ∧ Den r pre m post) := by
  induction r with
  | wordBoundary =>
    intro pre rest j hs
    subst hs
    simp only [matchEnds, Den]
    constructor
    · intro h
      split_ifs at h with hb
      · rw [List.mem_singleton] at h
        exact ⟨[], rest, rfl, by simpa using h, rfl, (wordBoundaryAt_append pre rest).mp hb⟩
      · simp at h
    · rintro ⟨m, post, hrest, hj, rfl, hb⟩
      have hrest2 : rest = post := by simpa using hrest
      subst hrest2
      rw [if_pos ((wordBoundaryAt_append pre rest).mpr hb)]
      simpa using hj
  | digit =>
    intro pre rest j hs
    subst hs
    simp only [matchEnds, Den, charAt_length_append]
    cases rest with
    | nil => simp
    | cons c t =>
      simp only [List.head?_cons]
      constructor
      · intro h
        split_ifs at h with hd
        · rw [List.mem_singleton] at h
          exact ⟨[c], t, rfl, by simpa using h, c, rfl, hd⟩
        · simp at h
      · rintro ⟨m, post, hrest, hj, d, rfl, hd⟩
        simp only [List.singleton_append, List.cons.injEq] at hrest
        obtain ⟨rfl, rfl⟩ := hrest
        rw [if_pos hd]
        simpa using hj
  | char a =>
    intro pre rest j hs
    subst hs
    simp only [matchEnds, Den, charAt_length_append]
    cases rest with
    | nil => simp
    | cons c t =>
      simp only [List.head?_cons]
      constructor
      · intro h
        split_ifs at h with hd
        · rw [List.mem_singleton] at h
          have hca : c = a := by simpa using hd
          subst hca
          exact ⟨[c], t, rfl, by simpa using h, rfl⟩
        · simp at h
      · rintro ⟨m, post, hrest, hj, rfl⟩
        simp only [List.singleton_append, List.cons.injEq] at hrest
        obtain ⟨rfl, rfl⟩ := hrest
        simpa using hj
  | seq a b iha ihb =>
    intro pre rest j hs
    simp only [matchEnds, Den, List.mem_flatMap]
    constructor
    · rintro ⟨k, hk, hj⟩
      obtain ⟨m1, post1, hrest, hk2, hD1⟩ := (iha pre rest k hs).mp hk
      have hs2 : s = (pre ++ m1) ++ post1 := by rw [hs, hrest, List.append_assoc]
      have hk3 : k = (pre ++ m1).length := by rw [List.length_append]; exact hk2
      rw [hk3] at hj
      obtain ⟨m2, post, hpost1, hj2, hD2⟩ := (ihb (pre ++ m1) post1 j hs2).mp hj
      refine ⟨m1 ++ m2, post, ?_, ?_, m1, m2, rfl, ?_, hD2⟩
      · rw [hrest, hpost1, List.append_assoc]
      · rw [hj2]; simp only [List.length_append]; omega
      · rw [← hpost1]; exact hD1
    · rintro ⟨m, post, hrest, hj, m1, m2, hm, hD1, hD2⟩
      refine ⟨pre.length + m1.length, ?_, ?_⟩
      · exact (iha pre rest _ hs).mpr ⟨m1, m2 ++ post, by rw [hrest, hm, List.append_assoc], rfl, hD1⟩
      · have hs2 : s = (pre ++ m1) ++ (m2 ++ post) := by
          rw [hs, hrest, hm, List.append_assoc, List.append_assoc]
        have := (ihb (pre ++ m1) (m2 ++ post) j hs2).mpr
          ⟨m2, post, rfl, by rw [hj, hm]; simp only [List.length_append]; omega, hD2⟩
        rwa [List.length_append] at this
  | rep r lo hi ih =>
    intro pre rest j hs
    simp only [matchEnds, Den]
    exact repEnds_iff s (matchEnds s r) (Den r) ih hi lo pre rest j hs
  | group r ih =>
    intro pre rest j hs
    simp only [matchEnds, Den]
    exact ih pre rest j hs

theorem denIter_zero (D : Str → Str → Str → Prop) (pre m post : Str) :
    DenIter D 0 pre m post ↔ m = [] := Iff.rfl

theorem denIter_succ (D : Str → Str → Str → Prop) (n : Nat) (pre m post : Str) :
    DenIter D (n + 1) pre m post ↔
      ∃ m1 m2, m = m1 ++ m2 ∧ D pre m1 (m2 ++ post) ∧ DenIter D n (pre ++ m1) m2 post :=
  Iff.rfl

theorem den_wordBoundary (pre m post : Str) :
    Den Regex.wordBoundary pre m post ↔ m = [] ∧ Boundary pre post := Iff.rfl

theorem den_digit (pre m post : Str) :
    Den Regex.digit pre m post ↔ ∃ c, m = [c] ∧ isDigit c = true := Iff.rfl

theorem den_char (a : Char) (pre m post : Str) :
    Den (Regex.char a) pre m post ↔ m = [a] := Iff.rfl

theorem den_seq (a b : Regex) (pre m post : Str) :
    Den (Regex.seq a b) pre m post ↔
      ∃ m1 m2, m = m1 ++ m2 ∧ Den a pre m1 (m2 ++ post) ∧ Den b (pre ++ m1) m2 post :=
  Iff.rfl

theorem den_rep (r : Regex) (lo hi : Nat) (pre m post : Str) :
    Den (Regex.rep r lo hi) pre m post ↔
      ∃ n, lo ≤ n ∧ n ≤ hi ∧ DenIter (Den r) n pre m post := Iff.rfl

theorem den_group (r : Regex) (pre m post : Str) :
    Den (Regex.group r) pre m post ↔ Den r pre m post := Iff.rfl

theorem denIter_digit (n : Nat) : ∀ (pre m post : Str),
    DenIter (Den Regex.digit) n pre m post ↔ m.length = n ∧ ∀ c ∈ m, isDigit c = true := by
  induction n with
  | zero =>
    intro pre m post
    rw [denIter_zero]
    constructor
    · rintro rfl; simp
    · rintro ⟨h, _⟩; exact List.length_eq_zero.mp h
  | succ n ih =>
    intro pre m post
    rw [denIter_succ]
    simp only [den_digit, ih]
    constructor
    · rintro ⟨m1, m2, rfl, ⟨c, rfl, hc⟩, hlen, hall⟩
      refine ⟨by simp [hlen], ?_⟩
      intro d hd
      rcases List.mem_append.mp hd with hd | hd
      · rw [List.mem_singleton.mp hd]; exact hc
      · exact hall d hd
    · rintro ⟨hlen, hall⟩
      cases m with
      | nil => simp at hlen
      | cons c t =>
        exact ⟨[c], t, rfl, ⟨c, rfl, hall c (by simp)⟩, by simpa using hlen,
          fun d hd => hall d (by simp [hd])⟩

theorem den_digits13 (pre m post : Str) : Den digits13 pre m post ↔ IsGroup m := by
  simp only [digits13, den_rep, denIter_digit, IsGroup]
  constructor
  · rintro ⟨n, h1, h2, rfl, hall⟩
    exact ⟨h1, h2, hall⟩
  · rintro ⟨h1, h2, hall⟩
    exact ⟨m.length, h1, h2, rfl, hall⟩

theorem den_dot_group (pre m post : Str) :
    Den (Regex.group (Regex.seq (Regex.char '.') digits13)) pre m post ↔
      ∃ g, IsGroup g ∧ m = ['.'] ++ g := by
  simp only [den_group, den_seq, den_char, den_digits13]
  constructor
  · rintro ⟨m1, m2, rfl, rfl, hg⟩
    exact ⟨m2, hg, rfl⟩
  · rintro ⟨g, hg, rfl⟩
    exact ⟨['.'], g, rfl, rfl, hg⟩

theorem den_ipre (pre m post : Str) : Den ipre pre m post ↔ IsQuadOccurrence pre m post := by
  have e3 : ∀ (pre m post : Str),
      (∃ n, 3 ≤ n ∧ n ≤ 3 ∧
        DenIter (Den (Regex.group (Regex.seq (Regex.char '.') digits13))) n pre m post) ↔
      ∃ g2 g3 g4, IsGroup g2 ∧ IsGroup g3 ∧ IsGroup g4 ∧
        m = ['.'] ++ g2 ++ ['.'] ++ g3 ++ ['.'] ++ g4 := by
    intro pre m post
    constructor
    · rintro ⟨n, h1, h2, hD⟩
      have hn : n = 3 := by omega
      subst hn
      simp only [denIter_succ, denIter_zero, den_dot_group] at hD
      obtain ⟨m1, r1, rfl, ⟨g2, hg2, rfl⟩, m2, r2, rfl, ⟨g3, hg3, rfl⟩, m3, r3, rfl,
        ⟨g4, hg4, rfl⟩, rfl⟩ := hD
      exact ⟨g2, g3, g4, hg2, hg3, hg4, by simp⟩
    · rintro ⟨g2, g3, g4, hg2, hg3, hg4, rfl⟩
      refine ⟨3, le_refl _, le_refl _, ?_⟩
      simp only [denIter_succ, denIter_zero, den_dot_group]
      exact ⟨['.'] ++ g2, ['.'] ++ g3 ++ ['.'] ++ g4, by simp, ⟨g2, hg2, rfl⟩,
        ['.'] ++ g3, ['.'] ++ g4, by simp, ⟨g3, hg3, rfl⟩,
        ['.'] ++ g4, [], by simp, ⟨g4, hg4, rfl⟩, rfl⟩
  unfold ipre
  simp only [den_group, den_seq, den_wordBoundary, den_rep, den_digits13, e3, IsQuadOccurrence,
    QuadShape]
  constructor
  · rintro ⟨m1, m2, rfl, ⟨rfl, hb1⟩, g1, m3, rfl, hg1, m4, m5, rfl,
      ⟨g2, g3, g4, hg2, hg3, hg4, rfl⟩, rfl, hb2⟩
    refine ⟨⟨g1, g2, g3, g4, hg1, hg2, hg3, hg4, by simp⟩, ?_, ?_⟩
    · simpa using hb1
    · simpa using hb2
  · rintro ⟨⟨g1, g2, g3, g4, hg1, hg2, hg3, hg4, rfl⟩, hb1, hb2⟩
    refine ⟨[], _, rfl, ⟨rfl, by simpa using hb1⟩, g1,
      ['.'] ++ g2 ++ ['.'] ++ g3 ++ ['.'] ++ g4, by simp, hg1,
      ['.'] ++ g2 ++ ['.'] ++ g3 ++ ['.'] ++ g4, [], by simp,
      ⟨g2, g3, g4, hg2, hg3, hg4, rfl⟩, rfl, by simpa using hb2⟩

theorem search_from_none (s : Str) (r : Regex) (n : Nat) : ∀ i : Nat,
    search_from s r n i = none → ∀ k, i ≤ k → k < i + n → matchEnds s r k = [] := by
  induction n with
  | zero => intro i _ k h1 h2; omega
  | succ n ih =>
    intro i h k h1 h2
    unfold search_from at h
    cases hm : matchEnds s r i with
    | nil =>
      rw [hm] at h
      rcases Nat.eq_or_lt_of_le h1 with rfl | hlt
      · exact hm
      · exact ih (i + 1) h k (by omega) (by omega)
    | cons j t => rw [hm] at h; simp at h

theorem search_from_some (s : Str) (r : Regex) (n : Nat) : ∀ (i a b : Nat),
    search_from s r n i = some (a, b) →
      i ≤ a ∧ a < i + n ∧ b ∈ matchEnds s r a ∧ ∀ k, i ≤ k → k < a → matchEnds s r k = [] := by
  induction n with
  | zero => intro i a b h; simp [search_from] at h
  | succ n ih =>
    intro i a b h
    unfold search_from at h
    cases hm : matchEnds s r i with
    | nil =>
      rw [hm] at h
      obtain ⟨h1, h2, h3, h4⟩ := ih (i + 1) a b h
      refine ⟨by omega, by omega, h3, ?_⟩
      intro k hk1 hk2
      rcases Nat.eq_or_lt_of_le hk1 with rfl | hlt
      · exact hm
      · exact h4 k (by omega) hk2
    | cons j t =>
      rw [hm] at h
      simp only [Option.some.injEq, Prod.mk.injEq] at h
      obtain ⟨rfl, rfl⟩ := h
      exact ⟨le_refl _, by omega, by simp [hm], fun k h1 h2 => by omega⟩

theorem mem_matchEnds_of_occurs (line pre m post : Str) (h : OccursAt line pre m post) :
    pre.length + m.length ∈ matchEnds line ipre pre.length ∧ pre.length < line.length + 1 := by
  obtain ⟨hl, ho⟩ := h
  refine ⟨(matchEnds_iff line ipre pre (m ++ post) _ (by rw [hl, List.append_assoc])).mpr
    ⟨m, post, rfl, rfl, (den_ipre pre m post).mpr ho⟩, ?_⟩
  rw [hl]; simp only [List.length_append]; omega

theorem occurs_of_mem_matchEnds (line : Str) (a b : Nat) (ha : a < line.length + 1)
    (hb : b ∈ matchEnds line ipre a) :
    ∃ pre m post, OccursAt line pre m post ∧ pre.length = a ∧
      (line.drop a).take (b - a) = m := by
  have hlen : (line.take a).length = a := by rw [List.length_take]; omega
  have hs : line = line.take a ++ line.drop a := (List.take_append_drop a line).symm
  have hb2 : b ∈ matchEnds line ipre (line.take a).length := by rw [hlen]; exact hb
  obtain ⟨m, post, hrest, hj, hD⟩ := (matchEnds_iff line ipre _ _ b hs).mp hb2
  refine ⟨line.take a, m, post, ⟨?_, (den_ipre _ _ _).mp hD⟩, hlen, ?_⟩
  · rw [List.append_assoc, ← hrest]; exact hs
  · rw [hrest, hj, hlen]
    simp

theorem quadShape_ne_nil (m : Str) (h : QuadShape m) : m ≠ [] := by
  obtain ⟨g1, g2, g3, g4, _, _, _, _, rfl⟩ := h
  simp

/-- What `extract_ip` returns: the empty string when the line has no dotted quad
between word boundaries, and otherwise the text of the occurrence that starts
first. -/
theorem extract_ip_spec (line : Str) :
    (extract_ip line = [] ∧ ¬ ∃ pre m post, OccursAt line pre m post) ∨
    (∃ pre post, OccursAt line pre (extract_ip line) post ∧
      ∀ pre2 m2 post2, OccursAt line pre2 m2 post2 → pre.length ≤ pre2.length) := by
  unfold extract_ip regex_search
  cases h : search_from line ipre (line.length + 1) 0 with
  | none =>
    left
    refine ⟨rfl, ?_⟩
    rintro ⟨pre, m, post, ho⟩
    obtain ⟨h1, h2⟩ := mem_matchEnds_of_occurs line pre m post ho
    have := search_from_none line ipre _ 0 h pre.length (Nat.zero_le _) (by omega)
    rw [this] at h1
    simp at h1
  | some p =>
    obtain ⟨a, b⟩ := p
    right
    obtain ⟨_, h2, h3, h4⟩ := search_from_some line ipre _ 0 a b h
    obtain ⟨pre, m, post, ho, hpre, hm⟩ := occurs_of_mem_matchEnds line a b (by omega) h3
    simp only [hm]
    refine ⟨pre, post, ho, ?_⟩
    intro pre2 m2 post2 ho2
    by_contra hlt
    obtain ⟨h5, _⟩ := mem_matchEnds_of_occurs line pre2 m2 post2 ho2
    have := h4 pre2.length (Nat.zero_le _) (by omega)
    rw [this] at h5
    simp at h5

theorem extract_ip_eq_nil_iff (line : Str) :
    extract_ip line = [] ↔ ¬ ∃ pre m post, OccursAt line pre m post := by
  rcases extract_ip_spec line with ⟨h1, h2⟩ | ⟨pre, post, ho, _⟩
  · simp [h1, h2]
  · have hne := quadShape_ne_nil _ ho.2.1
    constructor
    · intro h; exact absurd h hne
    · intro h; exact absurd ⟨pre, _, post, ho⟩ h

theorem isWord_of_isDigit (c : Char) (h : isDigit c = true) : isWord c = true := by
  simp only [isDigit] at h
  simp [isWord, h]

theorem headIsWord_group_append (g rest : Str) (hg : IsGroup g) :
    headIsWord (g ++ rest) = true := by
  obtain ⟨h1, _, h3⟩ := hg
  cases g with
  | nil => simp at h1
  | cons c t => exact isWord_of_isDigit c (h3 c (by simp))

theorem lastIsWord_append_group (pre g : Str) (hg : IsGroup g) :
    lastIsWord (pre ++ g) = true := by
  obtain ⟨h1, _, h3⟩ := hg
  rcases List.eq_nil_or_concat g with rfl | ⟨t, c, rfl⟩
  · simp at h1
  · have hc : isDigit c = true := h3 c (by simp)
    have e : pre ++ t.concat c = (pre ++ t) ++ [c] := by simp
    rw [e]
    simp only [lastIsWord, List.getLast?_append, List.getLast?_singleton]
    exact isWord_of_isDigit c hc

theorem isQuadOccurrence_iff (pre m post : Str) :
    IsQuadOccurrence pre m post ↔
      QuadShape m ∧ lastIsWord pre = false ∧ headIsWord post = false := by
  unfold IsQuadOccurrence Boundary
  constructor
  · rintro ⟨hq, hb1, hb2⟩
    obtain ⟨g1, g2, g3, g4, hg1, hg2, hg3, hg4, rfl⟩ := hq
    have e1 : headIsWord (g1 ++ ['.'] ++ g2 ++ ['.'] ++ g3 ++ ['.'] ++ g4 ++ post) = true := by
      simp only [List.append_assoc]
      exact headIsWord_group_append g1 _ hg1
    have e2 : lastIsWord (pre ++ (g1 ++ ['.'] ++ g2 ++ ['.'] ++ g3 ++ ['.'] ++ g4)) = true := by
      simp only [← List.append_assoc]
      exact lastIsWord_append_group _ g4 hg4
    rw [e1] at hb1
    rw [e2] at hb2
    refine ⟨⟨g1, g2, g3, g4, hg1, hg2, hg3, hg4, rfl⟩, ?_, ?_⟩
    · simpa using hb1
    · cases h : headIsWord post
      · rfl
      · exact absurd h.symm hb2
  · rintro ⟨hq, h1, h2⟩
    obtain ⟨g1, g2, g3, g4, hg1, hg2, hg3, hg4, rfl⟩ := hq
    have e1 : headIsWord (g1 ++ ['.'] ++ g2 ++ ['.'] ++ g3 ++ ['.'] ++ g4 ++ post) = true := by
      simp only [List.append_assoc]
      exact headIsWord_group_append g1 _ hg1
    have e2 : lastIsWord (pre ++ (g1 ++ ['.'] ++ g2 ++ ['.'] ++ g3 ++ ['.'] ++ g4)) = true := by
      simp only [← List.append_assoc]
      exact lastIsWord_append_group _ g4 hg4
    refine ⟨⟨g1, g2, g3, g4, hg1, hg2, hg3, hg4, rfl⟩, ?_, ?_⟩
    · rw [e1, h1]; decide
    · rw [e2, h2]; decide

/-- A run of digits that is followed by a non-digit is fixed by the whole text. -/
theorem digit_run_unique (g : Str) : ∀ (h r r2 : Str),
    (∀ c ∈ g, isDigit c = true) → (∀ c ∈ h, isDigit c = true) →
    (∀ c, r.head? = some c → isDigit c = false) →
    (∀ c, r2.head? = some c → isDigit c = false) →
    g ++ r = h ++ r2 → g = h ∧ r = r2 := by
  induction g with
  | nil =>
    intro h r r2 _ hh hr _ e
    cases h with
    | nil => exact ⟨rfl, by simpa using e⟩
    | cons d t =>
      simp only [List.nil_append, List.cons_append] at e
      have := hr d (by rw [e]; rfl)
      rw [hh d (by simp)] at this
      exact absurd this (by decide)
  | cons c t ih =>
    intro h r r2 hg hh hr hr2 e
    cases h with
    | nil =>
      simp only [List.nil_append, List.cons_append] at e
      have := hr2 c (by rw [← e]; rfl)
      rw [hg c (by simp)] at this
      exact absurd this (by decide)
    | cons d t2 =>
      simp only [List.cons_append, List.cons.injEq] at e
      obtain ⟨rfl, e⟩ := e
      obtain ⟨rfl, rfl⟩ := ih t2 r r2 (fun x hx => hg x (by simp [hx]))
        (fun x hx => hh x (by simp [hx])) hr hr2 e
      exact ⟨rfl, rfl⟩

theorem head_dot_not_digit (r : Str) : ∀ c, (['.'] ++ r).head? = some c → isDigit c = false := by
  intro c h
  simp only [List.singleton_append, List.head?_cons, Option.some.injEq] at h
  subst h
  decide

theorem head_not_digit_of_not_word (r : Str) (h : headIsWord r = false) :
    ∀ c, r.head? = some c → isDigit c = false := by
  intro c hc
  cases hd : isDigit c
  · rfl
  · have := isWord_of_isDigit c hd
    simp [headIsWord, hc, this] at h

/-- Two dotted quads between word boundaries that start at the same place of
the same text are equal. -/
theorem occurrence_unique (m post m2 post2 pre pre2 : Str)
    (h1 : IsQuadOccurrence pre m post) (h2 : IsQuadOccurrence pre2 m2 post2)
    (e : m ++ post = m2 ++ post2) : m = m2 := by
  obtain ⟨⟨g1, g2, g3, g4, hg1, hg2, hg3, hg4, rfl⟩, _, hp⟩ := (isQuadOccurrence_iff _ _ _).mp h1
  obtain ⟨⟨k1, k2, k3, k4, hk1, hk2, hk3, hk4, rfl⟩, _, hp2⟩ :=
    (isQuadOccurrence_iff _ _ _).mp h2
  have e1 : g1 ++ (['.'] ++ (g2 ++ (['.'] ++ (g3 ++ (['.'] ++ (g4 ++ post)))))) =
      k1 ++ (['.'] ++ (k2 ++ (['.'] ++ (k3 ++ (['.'] ++ (k4 ++ post2)))))) := by
    simpa only [List.append_assoc] using e
  obtain ⟨rfl, e2⟩ := digit_run_unique g1 k1 _ _ hg1.2.2 hk1.2.2 (head_dot_not_digit _)
    (head_dot_not_digit _) e1
  have e3 := List.append_cancel_left e2
  obtain ⟨rfl, e4⟩ := digit_run_unique g2 k2 _ _ hg2.2.2 hk2.2.2 (head_dot_not_digit _)
    (head_dot_not_digit _) e3
  have e5 := List.append_cancel_left e4
  obtain ⟨rfl, e6⟩ := digit_run_unique g3 k3 _ _ hg3.2.2 hk3.2.2 (head_dot_not_digit _)
    (head_dot_not_digit _) e5
  have e7 := List.append_cancel_left e6
  obtain ⟨rfl, _⟩ := digit_run_unique g4 k4 _ _ hg4.2.2 hk4.2.2
    (head_not_digit_of_not_word _ hp) (head_not_digit_of_not_word _ hp2) e7
  rfl

theorem occursAt_unique (line pre m post pre2 m2 post2 : Str)
    (h1 : OccursAt line pre m post) (h2 : OccursAt line pre2 m2 post2)
    (hl : pre2.length = pre.length) : m2 = m := by
  obtain ⟨e1, o1⟩ := h1
  obtain ⟨e2, o2⟩ := h2
  rw [e1, List.append_assoc, List.append_assoc] at e2
  obtain ⟨_, e3⟩ := List.append_inj e2 hl.symm
  exact (occurrence_unique m post m2 post2 pre pre2 o1 o2 e3).symm

theorem lookup_incr_self (m : IpMap) (k : Str) :
    lookup (incr m k) k = some ((lookup m k).getD 0 + 1) := by
  induction m with
  | nil => simp [incr, lookup]
  | cons p t ih =>
    obtain ⟨k2, v⟩ := p
    by_cases h : k2 = k
    · simp [incr, lookup, h]
    · simp [incr, lookup, h, ih]

theorem lookup_incr_other (m : IpMap) (k k2 : Str) (h : k2 ≠ k) :
    lookup (incr m k) k2 = lookup m k2 := by
  induction m with
  | nil => simp [incr, lookup, h.symm]
  | cons p t ih =>
    obtain ⟨k3, v⟩ := p
    by_cases h3 : k3 = k
    · subst h3
      simp [incr, lookup, h.symm]
    · by_cases h4 : k3 = k2
      · subst h4
        simp [incr, lookup, h]
      · simp [incr, lookup, h3, h4, ih]

/-! ## Lemmas on `stoi` and `parse_args` -/

theorem parse_loop_unrecognized (a : Str) (rest : List Str) (cfg : Config)
    (h : is_flag a = false) : parse_loop (a :: rest) cfg = parse_loop rest cfg := by
  simp only [is_flag, Bool.or_eq_false_iff, beq_eq_false_iff_ne, ne_eq] at h
  obtain ⟨⟨⟨h1, h2⟩, h3⟩, h4⟩ := h
  cases rest with
  | nil => rw [parse_loop.eq_2, if_neg h3, if_neg h4]
  | cons v t => rw [parse_loop.eq_3, if_neg h1, if_neg h2, if_neg h3, if_neg h4]

theorem parse_loop_no_flags (l : List Str) (cfg : Config)
    (h : ∀ a ∈ l, is_flag a = false) : parse_loop l cfg = Parsed.ok cfg := by
  induction l with
  | nil => rw [parse_loop.eq_1]
  | cons a t ih =>
    rw [parse_loop_unrecognized a t cfg (h a (by simp))]
    exact ih (fun x hx => h x (by simp [hx]))

theorem parse_loop_trailing (cfg : Config) :
    parse_loop ["--file".toList] cfg = Parsed.ok cfg ∧
    parse_loop ["--failed".toList] cfg = Parsed.ok cfg := by
  constructor
  · rw [parse_loop.eq_2, if_neg (by decide), if_neg (by decide), parse_loop.eq_1]
  · rw [parse_loop.eq_2, if_neg (by decide), if_neg (by decide), parse_loop.eq_1]

theorem parse_loop_ne_help (n : Nat) : ∀ (l : List Str) (cfg : Config), l.length ≤ n →
    "--help".toList ∉ l → parse_loop l cfg ≠ Parsed.help := by
  induction n with
  | zero =>
    intro l cfg hl _
    have : l = [] := List.length_eq_zero.mp (by omega)
    subst this
    rw [parse_loop]
    exact fun h => Parsed.noConfusion h
  | succ n ih =>
    intro l cfg hl hh
    match l with
    | [] => rw [parse_loop]; exact fun h => Parsed.noConfusion h
    | [a] =>
      have ha : ¬ a = "--help".toList := fun e => hh (by simp [e])
      rw [parse_loop]
      split_ifs
      · exact ih [] _ (by simp) (by simp)
      · exact ih [] _ (by simp) (by simp)
    | a :: v :: rest =>
      have ha : ¬ a = "--help".toList := fun e => hh (by simp [e])
      have hv : "--help".toList ∉ v :: rest := fun e => hh (List.mem_cons_of_mem _ e)
      have hr : "--help".toList ∉ rest := fun e => hv (List.mem_cons_of_mem _ e)
      simp only [List.length_cons] at hl
      rw [parse_loop]
      split_ifs
      · exact ih rest _ (by omega) hr
      · cases stoi v with
        | ok m => exact ih rest _ (by omega) hr
        | error e => exact fun h => Parsed.noConfusion h
      · exact ih (v :: rest) _ (by simp only [List.length_cons]; omega) hv
      · exact ih (v :: rest) _ (by simp only [List.length_cons]; omega) hv

theorem parse_args_ok_of (argv : List Str) (hp : ∀ e, parse_args argv ≠ Parsed.threw e)
    (hh : "--help".toList ∉ argv) : ∃ cfg, parse_args argv = Parsed.ok cfg := by
  have h1 : parse_args argv ≠ Parsed.help :=
    parse_loop_ne_help _ _ _ (le_refl _) (fun h => hh (List.mem_of_mem_drop h))
  cases h : parse_args argv with
  | ok cfg => exact ⟨cfg, rfl⟩
  | help => exact absurd h h1
  | threw e => exact absurd h (hp e)


theorem countP_eq_zero_of (p : Str → Bool) (lines : List Str) (h : ∀ l ∈ lines, p l = false) :
    lines.countP p = 0 := by
  rw [List.countP_eq_zero]
  intro l hl
  simp [h l hl]

/-! ## Lemmas on the address maps after a scan -/

theorem loop_body_total_errors (st : LoopState) (line : Str) :
    (loop_body st line).total.errors =
      st.total.errors + (if mentions "error" line then 1 else 0) := by
  simp only [loop_body, on_critical, on_error, on_failed, find_isSome]
  split_ifs <;> simp

theorem loop_body_total_criticals (st : LoopState) (line : Str) :
    (loop_body st line).total.criticals =
      st.total.criticals + (if mentions "critical" line then 1 else 0) := by
  simp only [loop_body, on_critical, on_error, on_failed, find_isSome]
  split_ifs <;> simp

theorem loop_body_total_ipCount (st : LoopState) (line : Str) :
    (loop_body st line).total.ipCount =
      if mentions "failed password" line = true ∧ extract_ip line ≠ [] then
        incr st.total.ipCount (extract_ip line)
      else st.total.ipCount := by
  simp only [loop_body, on_critical, on_error, on_failed, find_isSome]
  split_ifs <;> simp_all

theorem foldl_total_errors (lines : List Str) (st : LoopState) :
    (lines.foldl loop_body st).total.errors =
      st.total.errors + (lines.countP (mentions "error") : Nat) := by
  induction lines generalizing st with
  | nil => simp
  | cons l ls ih =>
    rw [List.foldl_cons, ih, loop_body_total_errors, List.countP_cons]
    split_ifs <;> simp_all
    omega

theorem foldl_total_criticals (lines : List Str) (st : LoopState) :
    (lines.foldl loop_body st).total.criticals =
      st.total.criticals + (lines.countP (mentions "critical") : Nat) := by
  induction lines generalizing st with
  | nil => simp
  | cons l ls ih =>
    rw [List.foldl_cons, ih, loop_body_total_criticals, List.countP_cons]
    split_ifs <;> simp_all
    omega

theorem hit_keys_cons (l : Str) (ls : List Str) :
    hit_keys (l :: ls) =
      if mentions "failed password" l = true ∧ extract_ip l ≠ [] then
        extract_ip l :: hit_keys ls
      else hit_keys ls := by
  unfold hit_keys
  by_cases h : mentions "failed password" l = true ∧ extract_ip l ≠ []
  · rw [List.filterMap_cons_some (by rw [if_pos h]), if_pos h]
  · rw [List.filterMap_cons_none (by rw [if_neg h]), if_neg h]

/-- The per-run map after the loop: one `m[k]++` per counted address. -/
theorem foldl_ip_this_eq (lines : List Str) (st : LoopState) :
    (lines.foldl loop_body st).ip_this = (hit_keys lines).foldl incr st.ip_this := by
  induction lines generalizing st with
  | nil => rfl
  | cons l ls ih =>
    rw [List.foldl_cons, ih, loop_body_ip_this, hit_keys_cons]
    split_ifs <;> rfl

/-- The cumulative map after the loop: the same increments on the map it had. -/
theorem foldl_total_ipCount_eq (lines : List Str) (st : LoopState) :
    (lines.foldl loop_body st).total.ipCount =
      (hit_keys lines).foldl incr st.total.ipCount := by
  induction lines generalizing st with
  | nil => rfl
  | cons l ls ih =>
    rw [List.foldl_cons, ih, loop_body_total_ipCount, hit_keys_cons]
    split_ifs <;> rfl

theorem lookup_incr (m : IpMap) (k k2 : Str) :
    lookup (incr m k) k2 = if k2 = k then some (count_of m k + 1) else lookup m k2 := by
  by_cases h : k2 = k
  · subst h
    rw [if_pos rfl, lookup_incr_self]
    rfl
  · rw [if_neg h, lookup_incr_other _ _ _ h]

theorem lookup_foldl_incr (ks : List Str) : ∀ (m : IpMap) (k : Str),
    lookup (ks.foldl incr m) k =
      if ks.count k = 0 then lookup m k else some (count_of m k + (ks.count k : Nat)) := by
  induction ks with
  | nil => intro m k; simp
  | cons a t ih =>
    intro m k
    rw [List.foldl_cons, ih, List.count_cons]
    by_cases hak : a = k
    · subst hak
      simp only [count_of, lookup_incr, if_true, beq_self_eq_true, Option.getD_some]
      by_cases ht : List.count a t = 0
      · simp [ht]
      · simp only [ht, if_false, Nat.add_eq_zero, one_ne_zero, and_false, Option.some.injEq]
        push_cast
        ring
    · have hka : ¬ k = a := fun e => hak e.symm
      have hb : (a == k) = false := by simpa using hak
      simp only [count_of, lookup_incr, hka, if_false, hb, Bool.false_eq_true, Nat.add_zero]

theorem count_of_foldl_incr (ks : List Str) (m : IpMap) (k : Str) :
    count_of (ks.foldl incr m) k = count_of m k + (ks.count k : Nat) := by
  unfold count_of
  rw [lookup_foldl_incr]
  by_cases h : ks.count k = 0
  · simp [h]
  · simp [h, count_of]

theorem lookup_nil (k : Str) : lookup [] k = none := rfl

/-- The entry of an address in the per-run map after a scan. -/
theorem scan_loop_lookup (lines : List Str) (total : Counters) (k : Str) :
    lookup (scan_loop lines total).ip_this k =
      if (hit_keys lines).count k = 0 then none else some (((hit_keys lines).count k : Nat) : Int) := by
  rw [scan_loop, foldl_ip_this_eq, lookup_foldl_incr]
  simp [count_of, lookup_nil]

theorem scan_loop_count_of (lines : List Str) (total : Counters) (k : Str) :
    count_of (scan_loop lines total).ip_this k = ((hit_keys lines).count k : Nat) := by
  rw [scan_loop, foldl_ip_this_eq, count_of_foldl_incr]
  simp [count_of, lookup_nil]
theorem incr_values_pos (m : IpMap) (k : Str) (h : ∀ p ∈ m, 1 ≤ p.2) :
    ∀ p ∈ incr m k, 1 ≤ p.2 := by
  induction m with
  | nil =>
    intro p hp
    simp only [incr, List.mem_singleton] at hp
    subst hp
    exact le_refl _
  | cons q t ih =>
    obtain ⟨k2, v⟩ := q
    have hv : 1 ≤ v := h (k2, v) (by simp)
    have ht : ∀ p ∈ t, 1 ≤ p.2 := fun p hp => h p (by simp [hp])
    intro p hp
    unfold incr at hp
    split_ifs at hp
    · rcases List.mem_cons.mp hp with rfl | hp
      · show 1 ≤ v + 1
        omega
      · exact ht p hp
    · rcases List.mem_cons.mp hp with rfl | hp
      · exact hv
      · exact ih ht p hp

theorem foldl_incr_values_pos (ks : List Str) : ∀ (m : IpMap), (∀ p ∈ m, 1 ≤ p.2) →
    ∀ p ∈ ks.foldl incr m, 1 ≤ p.2 := by
  induction ks with
  | nil => intro m h; simpa using h
  | cons a t ih =>
    intro m h
    rw [List.foldl_cons]
    exact ih _ (incr_values_pos m a h)

theorem foldl_incr_keys (ks : List Str) : ∀ (m : IpMap) (k : Str),
    k ∈ (ks.foldl incr m).map Prod.fst → k ∈ m.map Prod.fst ∨ k ∈ ks := by
  induction ks with
  | nil => intro m k h; exact Or.inl (by simpa using h)
  | cons a t ih =>
    intro m k h
    rw [List.foldl_cons] at h
    rcases ih _ k h with h1 | h1
    · rw [incr_keys] at h1
      split_ifs at h1
      · exact Or.inl h1
      · rcases List.mem_append.mp h1 with h2 | h2
        · exact Or.inl h2
        · exact Or.inr (by rw [List.mem_singleton.mp h2]; simp)
    · exact Or.inr (List.mem_cons_of_mem _ h1)

theorem sum_counts_incr (m : IpMap) (k : Str) : sum_counts (incr m k) = sum_counts m + 1 := by
  induction m with
  | nil => simp [incr, sum_counts]
  | cons q t ih =>
    obtain ⟨k2, v⟩ := q
    unfold sum_counts at ih ⊢
    unfold incr
    split_ifs
    · simp only [List.map_cons, List.sum_cons]
      omega
    · simp only [List.map_cons, List.sum_cons, ih]
      omega

theorem sum_counts_foldl_incr (ks : List Str) : ∀ m : IpMap,
    sum_counts (ks.foldl incr m) = sum_counts m + (ks.length : Nat) := by
  induction ks with
  | nil => intro m; simp
  | cons a t ih =>
    intro m
    rw [List.foldl_cons, ih, sum_counts_incr, List.length_cons]
    push_cast
    ring

theorem mem_hit_keys (lines : List Str) (k : Str) :
    k ∈ hit_keys lines ↔
      ∃ l ∈ lines, mentions "failed password" l = true ∧ extract_ip l ≠ [] ∧ extract_ip l = k := by
  unfold hit_keys
  rw [List.mem_filterMap]
  constructor
  · rintro ⟨l, hl, h⟩
    split_ifs at h with hc
    · exact ⟨l, hl, hc.1, hc.2, by simpa using h⟩
  · rintro ⟨l, hl, h1, h2, h3⟩
    exact ⟨l, hl, by rw [if_pos ⟨h1, h2⟩, h3]⟩

theorem hit_keys_length (lines : List Str) :
    (hit_keys lines).length ≤ lines.countP (mentions "failed password") ∧
    ((hit_keys lines).length = lines.countP (mentions "failed password") ↔
      ∀ l ∈ lines, mentions "failed password" l = true → extract_ip l ≠ []) := by
  induction lines with
  | nil => simp [hit_keys]
  | cons l ls ih =>
    rw [hit_keys_cons, List.countP_cons]
    by_cases hm : mentions "failed password" l = true
    · by_cases he : extract_ip l = []
      · simp only [hm, he, ne_eq, not_true_eq_false, and_false, if_false, if_true,
          List.mem_cons, forall_eq_or_imp, forall_true_left, false_and, iff_false]
        exact ⟨by omega, by omega⟩
      · simp only [hm, he, ne_eq, not_false_eq_true, and_self, if_true, List.length_cons,
          List.mem_cons, forall_eq_or_imp, forall_true_left, true_and]
        exact ⟨by omega, by rw [← ih.2]; omega⟩
    · simp only [hm, false_and, if_false, Bool.false_eq_true, Nat.add_zero, List.mem_cons,
        forall_eq_or_imp, false_implies, true_and]
      exact ih

theorem quadShape_facts (k : Str) (h : QuadShape k) :
    7 ≤ k.length ∧ k.length ≤ 15 ∧ (∀ c ∈ k, isDigit c = true ∨ c = '.') ∧ k.count '.' = 3 := by
  obtain ⟨g1, g2, g3, g4, h1, h2, h3, h4, rfl⟩ := h
  have hz : ∀ g : Str, IsGroup g → g.count '.' = 0 := by
    intro g hg
    rw [List.count_eq_zero]
    intro hmem
    exact absurd (hg.2.2 _ hmem) (by decide)
  refine ⟨?_, ?_, ?_, ?_⟩
  · simp only [List.length_append, List.length_singleton]
    have := h1.1; have := h2.1; have := h3.1; have := h4.1
    omega
  · simp only [List.length_append, List.length_singleton]
    have := h1.2.1; have := h2.2.1; have := h3.2.1; have := h4.2.1
    omega
  · intro c hc
    simp only [List.mem_append, List.mem_singleton] at hc
    rcases hc with (((((hc | hc) | hc) | hc) | hc) | hc) | hc
    · exact Or.inl (h1.2.2 c hc)
    · exact Or.inr hc
    · exact Or.inl (h2.2.2 c hc)
    · exact Or.inr hc
    · exact Or.inl (h3.2.2 c hc)
    · exact Or.inr hc
    · exact Or.inl (h4.2.2 c hc)
  · simp only [List.count_append, hz g1 h1, hz g2 h2, hz g3 h3, hz g4 h4]
    rfl

theorem occursAt_of_extract_ip (l : Str) (h : extract_ip l ≠ []) :
    ∃ pre post, OccursAt l pre (extract_ip l) post := by
  rcases extract_ip_spec l with ⟨h1, _⟩ | ⟨pre, post, ho, _⟩
  · exact absurd h1 h
  · exact ⟨pre, post, ho⟩

theorem mem_iff_lookup (m : IpMap) (hn : (m.map Prod.fst).Nodup) (k : Str) (v : Int) :
    (k, v) ∈ m ↔ lookup m k = some v := by
  induction m with
  | nil => simp [lookup]
  | cons q t ih =>
    obtain ⟨k2, v2⟩ := q
    simp only [List.map_cons, List.nodup_cons] at hn
    by_cases h : k2 = k
    · subst h
      simp only [lookup, if_true, List.mem_cons, Prod.mk.injEq, true_and, Option.some.injEq]
      constructor
      · rintro (h | h)
        · exact h.symm
        · exact absurd (List.mem_map_of_mem Prod.fst h) hn.1
      · intro h; exact Or.inl h.symm
    · have h2 : ¬ k = k2 := fun e => h e.symm
      simp only [lookup, h, if_false, List.mem_cons, Prod.mk.injEq, h2, false_and, false_or]
      exact ih hn.2
theorem hit_keys_append (a b : List Str) : hit_keys (a ++ b) = hit_keys a ++ hit_keys b := by
  unfold hit_keys
  rw [List.filterMap_append]

theorem hit_keys_perm (a b : List Str) (h : a.Perm b) : (hit_keys a).Perm (hit_keys b) :=
  h.filterMap _

/-- Two maps with distinct keys and the same entry for every address hold the
same entries. -/
theorem perm_of_lookup_eq (m1 m2 : IpMap) (h1 : (m1.map Prod.fst).Nodup)
    (h2 : (m2.map Prod.fst).Nodup) (h : ∀ k, lookup m1 k = lookup m2 k) : m1.Perm m2 := by
  rw [List.perm_ext_iff_of_nodup (List.Nodup.of_map _ h1) (List.Nodup.of_map _ h2)]
  rintro ⟨k, v⟩
  rw [mem_iff_lookup m1 h1, mem_iff_lookup m2 h2, h k]

/-! ## Lemmas on letter case -/

theorem toNat_ofNat_small (n : Nat) (h : n < 55296) : (Char.ofNat n).toNat = n := by
  have hv : n.isValidChar := Or.inl h
  simp only [Char.ofNat, hv, dite_true, Char.ofNatAux, Char.toNat, UInt32.toNat]
  rfl

theorem char_eq_of_toNat_eq (c d : Char) (h : c.toNat = d.toNat) : c = d := by
  rw [← Char.ofNat_toNat c, ← Char.ofNat_toNat d, h]

theorem tolower_toNat (c : Char) :
    (tolower c).toNat = if 65 ≤ c.toNat ∧ c.toNat ≤ 90 then c.toNat + 32 else c.toNat := by
  unfold tolower
  split_ifs with h
  · exact toNat_ofNat_small _ (by omega)
  · rfl

theorem tolower_of_not_upper (c : Char) (h : ¬ (65 ≤ c.toNat ∧ c.toNat ≤ 90)) :
    tolower c = c := by
  unfold tolower
  rw [if_neg h]

theorem tolower_idem (c : Char) : tolower (tolower c) = tolower c := by
  apply tolower_of_not_upper
  rw [tolower_toNat]
  split_ifs <;> omega

theorem isDigit_tolower (c : Char) : isDigit (tolower c) = isDigit c := by
  simp only [isDigit, tolower_toNat]
  split_ifs with h
  · rw [Bool.eq_iff_iff]
    simp only [decide_eq_true_eq]
    omega
  · rfl

theorem isWord_tolower (c : Char) : isWord (tolower c) = isWord c := by
  simp only [isWord, tolower_toNat]
  split_ifs with h
  · rw [Bool.eq_iff_iff]
    simp only [Bool.or_eq_true, decide_eq_true_eq]
    omega
  · rfl

theorem swap_case_toNat (c : Char) :
    (swap_case c).toNat =
      if 65 ≤ c.toNat ∧ c.toNat ≤ 90 then c.toNat + 32
      else if 97 ≤ c.toNat ∧ c.toNat ≤ 122 then c.toNat - 32 else c.toNat := by
  unfold swap_case
  split_ifs with h1 h2
  · exact toNat_ofNat_small _ (by omega)
  · exact toNat_ofNat_small _ (by omega)
  · rfl

theorem tolower_swap_case (c : Char) : tolower (swap_case c) = tolower c := by
  apply char_eq_of_toNat_eq
  rw [tolower_toNat, tolower_toNat, swap_case_toNat]
  split_ifs <;> omega

/-- A digit or a period is the only byte with its lowercase form. -/
theorem eq_of_tolower_eq (c d : Char) (h : tolower c = tolower d)
    (hc : isDigit c = true ∨ c = '.') : c = d := by
  apply char_eq_of_toNat_eq
  have h2 := congrArg Char.toNat h
  rw [tolower_toNat, tolower_toNat] at h2
  have hn : (48 ≤ c.toNat ∧ c.toNat ≤ 57) ∨ c.toNat = 46 := by
    rcases hc with hc | hc
    · left; simpa [isDigit] using hc
    · right; rw [hc]; rfl
  split_ifs at h2 <;> omega


theorem to_lower_copy_of_case_variant (a : Str) : ∀ b : Str, case_variant a b = true →
    to_lower_copy a = to_lower_copy b := by
  induction a with
  | nil =>
    intro b h
    cases b with
    | nil => rfl
    | cons d t => simp [case_variant] at h
  | cons c s ih =>
    intro b h
    cases b with
    | nil => simp [case_variant] at h
    | cons d t =>
      simp only [case_variant, Bool.and_eq_true, Bool.or_eq_true, beq_iff_eq] at h
      have e := ih t h.2
      unfold to_lower_copy at e ⊢
      rw [List.map_cons, List.map_cons, e]
      rcases h.1 with rfl | rfl
      · rfl
      · rw [tolower_swap_case]

theorem case_variant_to_lower_copy (s : Str) : case_variant s (to_lower_copy s) = true := by
  induction s with
  | nil => rfl
  | cons c t ih =>
    have e : to_lower_copy (c :: t) = tolower c :: to_lower_copy t := rfl
    rw [e]
    simp only [case_variant, Bool.and_eq_true, Bool.or_eq_true, beq_iff_eq]
    refine ⟨?_, ih⟩
    unfold tolower swap_case
    split_ifs
    · exact Or.inr rfl
    · exact Or.inl rfl
    · exact Or.inl rfl

theorem lastIsWord_map_tolower (pre : Str) : lastIsWord (pre.map tolower) = lastIsWord pre := by
  rcases List.eq_nil_or_concat pre with rfl | ⟨t, c, rfl⟩
  · rfl
  · simp [lastIsWord, isWord_tolower]

theorem headIsWord_map_tolower (post : Str) :
    headIsWord (post.map tolower) = headIsWord post := by
  cases post with
  | nil => rfl
  | cons c t => simp [headIsWord, isWord_tolower]

theorem eq_of_map_tolower_eq (m : Str) : ∀ m2 : Str, m.map tolower = m2.map tolower →
    (∀ c ∈ m, isDigit c = true ∨ c = '.') → m = m2 := by
  induction m with
  | nil =>
    intro m2 h _
    cases m2 with
    | nil => rfl
    | cons d t => simp at h
  | cons c t ih =>
    intro m2 h hc
    cases m2 with
    | nil => simp at h
    | cons d t2 =>
      simp only [List.map_cons, List.cons.injEq] at h
      rw [eq_of_tolower_eq c d h.1 (hc c (by simp)),
        ih t2 h.2 (fun x hx => hc x (by simp [hx]))]

/-- A dotted quad between word boundaries stays one, at the same place, when the
case of letters of the line changes. -/
theorem occursAt_transfer (s s2 pre m post : Str)
    (h : to_lower_copy s = to_lower_copy s2) (ho : OccursAt s pre m post) :
    ∃ pre2 post2, OccursAt s2 pre2 m post2 ∧ pre2.length = pre.length := by
  obtain ⟨hs, hq⟩ := ho
  have hlen : s2.length = s.length := by
    have := congrArg List.length h
    simpa [to_lower_copy] using this.symm
  have hlens : s.length = pre.length + m.length + post.length := by
    rw [hs]; simp only [List.length_append]
  have e2 : s2 = s2.take pre.length ++ ((s2.drop pre.length).take m.length ++
      (s2.drop pre.length).drop m.length) := by
    rw [List.take_append_drop, List.take_append_drop]
  have l1 : (s2.take pre.length).length = pre.length := by
    rw [List.length_take]; omega
  have l2 : ((s2.drop pre.length).take m.length).length = m.length := by
    rw [List.length_take, List.length_drop]; omega
  have hmap : pre.map tolower ++ (m.map tolower ++ post.map tolower) =
      (s2.take pre.length).map tolower ++ (((s2.drop pre.length).take m.length).map tolower ++
        ((s2.drop pre.length).drop m.length).map tolower) := by
    rw [← List.map_append, ← List.map_append, ← List.map_append, ← List.map_append, ← e2,
      ← List.append_assoc, ← hs]
    exact h
  obtain ⟨hp, hrest⟩ := List.append_inj hmap (by rw [List.length_map, List.length_map, l1])
  obtain ⟨hm, hpost⟩ := List.append_inj hrest (by rw [List.length_map, List.length_map, l2])
  obtain ⟨hshape, hb1, hb2⟩ := (isQuadOccurrence_iff _ _ _).mp hq
  have hm2 : m = (s2.drop pre.length).take m.length :=
    eq_of_map_tolower_eq m _ hm (quadShape_facts m hshape).2.2.1
  refine ⟨s2.take pre.length, (s2.drop pre.length).drop m.length, ⟨?_, ?_⟩, l1⟩
  · rw [List.append_assoc]
    conv_lhs => rw [e2]
    rw [← hm2]
  · rw [isQuadOccurrence_iff]
    refine ⟨hshape, ?_, ?_⟩
    · rw [← lastIsWord_map_tolower, ← hp, lastIsWord_map_tolower]; exact hb1
    · rw [← headIsWord_map_tolower, ← hpost, headIsWord_map_tolower]; exact hb2

/-- `extract_ip` gives the same address on two lines that differ in letter case
only. -/
theorem extract_ip_case (s s2 : Str) (h : to_lower_copy s = to_lower_copy s2) :
    extract_ip s = extract_ip s2 := by
  rcases extract_ip_spec s with ⟨h1, hno⟩ | ⟨pre, post, ho, hmin⟩
  · rcases extract_ip_spec s2 with ⟨h2, _⟩ | ⟨pre2, post2, ho2, _⟩
    · rw [h1, h2]
    · obtain ⟨p, q, ho3, _⟩ := occursAt_transfer s2 s pre2 _ post2 h.symm ho2
      exact absurd ⟨p, _, q, ho3⟩ hno
  · rcases extract_ip_spec s2 with ⟨_, hno2⟩ | ⟨pre2, post2, ho2, hmin2⟩
    · obtain ⟨p, q, ho3, _⟩ := occursAt_transfer s s2 pre _ post h ho
      exact absurd ⟨p, _, q, ho3⟩ hno2
    · obtain ⟨p, q, ho3, hl3⟩ := occursAt_transfer s s2 pre _ post h ho
      obtain ⟨p4, q4, ho4, hl4⟩ := occursAt_transfer s2 s pre2 _ post2 h.symm ho2
      have ha := hmin2 p _ q ho3
      have hb := hmin p4 _ q4 ho4
      exact occursAt_unique s2 pre2 _ post2 p _ q ho2 ho3 (by omega)

theorem loop_body_case (st : LoopState) (l l2 : Str) (h : to_lower_copy l = to_lower_copy l2) :
    loop_body st l = loop_body st l2 := by
  unfold loop_body on_failed
  simp only [h, extract_ip_case l l2 h]

theorem scan_loop_case (a : List Str) : ∀ (b : List Str) (st : LoopState),
    case_variant_file a b = true → a.foldl loop_body st = b.foldl loop_body st := by
  induction a with
  | nil =>
    intro b st h
    cases b with
    | nil => rfl
    | cons m ms => simp [case_variant_file] at h
  | cons l ls ih =>
    intro b st h
    cases b with
    | nil => simp [case_variant_file] at h
    | cons m ms =>
      simp only [case_variant_file, Bool.and_eq_true] at h
      rw [List.foldl_cons, List.foldl_cons,
        loop_body_case st l m (to_lower_copy_of_case_variant l m h.1)]
      exact ih ms _ h.2

theorem getElem_to_lower_copy (s : Str) (i : Nat) :
    (to_lower_copy s)[i]? = (s[i]?).map tolower := by
  unfold to_lower_copy
  rw [List.getElem?_map]

/-! ## The claims -/

/-- C1: after the loop over the lines of a file that could be opened, the run's
failed-login, error and critical counts are the numbers of lines whose
lowercased text contains "failed password", "error" and "critical"; the
categories are counted independently, so a further line that contains both
"error" and "critical" raises both of these counts by one. -/
theorem C1_run_counts (lines : List Str) (total : Counters) :
    ((scan_loop lines total).failed_this =
        ((lines.countP (fun l => decide ("failed password".toList <:+: to_lower_copy l)) : Nat) : Int) ∧
      (scan_loop lines total).errors_this =
        ((lines.countP (fun l => decide ("error".toList <:+: to_lower_copy l)) : Nat) : Int) ∧
      (scan_loop lines total).criticals_this =
        ((lines.countP (fun l => decide ("critical".toList <:+: to_lower_copy l)) : Nat) : Int)) ∧
    (∀ l : Str, "error".toList <:+: to_lower_copy l → "critical".toList <:+: to_lower_copy l →
      (scan_loop (lines ++ [l]) total).errors_this = (scan_loop lines total).errors_this + 1 ∧
      (scan_loop (lines ++ [l]) total).criticals_this =
        (scan_loop lines total).criticals_this + 1) := by
  refine ⟨⟨scan_loop_failed_this lines total, scan_loop_errors_this lines total,
    scan_loop_criticals_this lines total⟩, ?_⟩
  intro l he hc
  have he2 : mentions "error" l = true := by simpa [mentions] using he
  have hc2 : mentions "critical" l = true := by simpa [mentions] using hc
  simp only [scan_loop, List.foldl_append, List.foldl_cons, List.foldl_nil,
    loop_body_errors_this, loop_body_criticals_this, he2, hc2, if_true, and_self]

/-- C1, at a line that has both "error" and "critical": after two other lines, it
raises the error count from 1 to 2 and the critical count from 0 to 1. -/
theorem C1_run_counts_witness :
    (scan_loop ["disk error".toList, "all fine".toList, "Error: CRITICAL failure".toList]
        {}).errors_this = 2 ∧
    (scan_loop ["disk error".toList, "all fine".toList, "Error: CRITICAL failure".toList]
        {}).criticals_this = 1 :=
  have h := (C1_run_counts ["disk error".toList, "all fine".toList] {}).2
    "Error: CRITICAL failure".toList (by decide) (by decide)
  ⟨h.1.trans (by decide), h.2.trans (by decide)⟩

/-- C2: the sink text of a scan has the line "ALERT: Multiple failed logins (F)",
with F the run's failed-login count, if and only if F is greater than the
threshold; any failed-login line in it implies F > T; at F = T there is no such
line and at F = T + 1 there is one. -/
theorem C2_failed_alert_iff (col : Colors) (cfg : Config) (total : Counters)
    (lines : List Str) :
    (failed_msg (scan_loop lines total).failed_this ∈
        text_lines (scan_file col cfg total (some lines)).alertOut ↔
      (scan_loop lines total).failed_this > cfg.failed_threshold) ∧
    (∀ n, failed_msg n ∈ text_lines (scan_file col cfg total (some lines)).alertOut →
      (scan_loop lines total).failed_this > cfg.failed_threshold) ∧
    ((scan_loop lines total).failed_this = cfg.failed_threshold →
      ∀ n, failed_msg n ∉ text_lines (scan_file col cfg total (some lines)).alertOut) ∧
    ((scan_loop lines total).failed_this = cfg.failed_threshold + 1 →
      failed_msg (cfg.failed_threshold + 1) ∈
        text_lines (scan_file col cfg total (some lines)).alertOut) := by
  have key := failed_msg_mem_iff col cfg (scan_loop lines total)
  simp only [scan_file]
  refine ⟨?_, ?_, ?_, ?_⟩
  · rw [key]; simp
  · intro n hn
    exact ((key n).mp hn).2
  · intro hF n hn
    have h2 := ((key n).mp hn).2
    omega
  · intro hF
    rw [← hF, key]
    exact ⟨rfl, by omega⟩

/-- C2, at the boundary of the default threshold 3: four failed-login lines give
the alert line, three give none. -/
theorem C2_failed_alert_iff_witness :
    failed_msg (3 + 1) ∈
      text_lines (scan_file {} {} {}
        (some ["failed password a".toList, "Failed password b".toList,
          "FAILED PASSWORD c".toList, "x failed password d".toList])).alertOut ∧
    ∀ n, failed_msg n ∉
      text_lines (scan_file {} {} {}
        (some ["failed password a".toList, "Failed password b".toList,
          "FAILED PASSWORD c".toList])).alertOut :=
  ⟨(C2_failed_alert_iff {} {} {}
      ["failed password a".toList, "Failed password b".toList,
        "FAILED PASSWORD c".toList, "x failed password d".toList]).2.2.2 (by decide),
    (C2_failed_alert_iff {} {} {}
      ["failed password a".toList, "Failed password b".toList,
        "FAILED PASSWORD c".toList]).2.2.1 (by decide)⟩

/-- C3: the sink text of a scan has the line "ALERT: E error(s)", with E the
decimal error count of the run, if and only if E > 0, and the line
"CRITICAL: K critical issue(s)", with K the critical count, if and only if K > 0;
no error or critical line of another shape is written, whatever the threshold and
the other counts are; the digits written for E and K read back as E and K. -/
theorem C3_error_critical_alert_iff (col : Colors) (cfg : Config) (total : Counters)
    (lines : List Str) :
    (error_msg (scan_loop lines total).errors_this ∈
        text_lines (scan_file col cfg total (some lines)).alertOut ↔
      (scan_loop lines total).errors_this > 0) ∧
    (critical_msg (scan_loop lines total).criticals_this ∈
        text_lines (scan_file col cfg total (some lines)).alertOut ↔
      (scan_loop lines total).criticals_this > 0) ∧
    (∀ n, error_msg n ∈ text_lines (scan_file col cfg total (some lines)).alertOut →
      error_msg n = error_msg (scan_loop lines total).errors_this ∧
        (scan_loop lines total).errors_this > 0) ∧
    (∀ n, critical_msg n ∈ text_lines (scan_file col cfg total (some lines)).alertOut →
      critical_msg n = critical_msg (scan_loop lines total).criticals_this ∧
        (scan_loop lines total).criticals_this > 0) ∧
    ((decimal_value (put_int (scan_loop lines total).errors_this) : Int) =
      (scan_loop lines total).errors_this) ∧
    ((decimal_value (put_int (scan_loop lines total).criticals_this) : Int) =
      (scan_loop lines total).criticals_this) := by
  have ke := error_msg_mem_iff col cfg (scan_loop lines total)
  have kc := critical_msg_mem_iff col cfg (scan_loop lines total)
  simp only [scan_file]
  refine ⟨?_, ?_, ?_, ?_, ?_, ?_⟩
  · rw [ke]; simp
  · rw [kc]; simp
  · intro n hn; exact (ke n).mp hn
  · intro n hn; exact (kc n).mp hn
  · rw [scan_loop_errors_this, decimal_value_put_int]
  · rw [scan_loop_criticals_this, decimal_value_put_int]

/-- C4: `extract_ip` returns the empty string exactly when the line has no
substring of four groups of 1 to 3 digits separated by single periods with a
word boundary on each side; otherwise it returns such a substring, no other one
starts further left, and the one that starts at the same place is the result
itself. The byte before and the byte after the result are never word characters
(letters, digits, underscore), so a run of four or more digits and a group next
to a letter or an underscore are never part of it. The groups are not range
checked: "999.999.999.999" is returned unchanged. -/
theorem C4_extract_ip (line : Str) :
    (extract_ip line = [] ↔ ¬ ∃ pre m post, OccursAt line pre m post) ∧
    (extract_ip line ≠ [] →
      ∃ pre post, OccursAt line pre (extract_ip line) post ∧
        lastIsWord pre = false ∧ headIsWord post = false ∧
        ∀ pre2 m2 post2, OccursAt line pre2 m2 post2 →
          pre.length ≤ pre2.length ∧ (pre2.length = pre.length → m2 = extract_ip line)) ∧
    extract_ip "999.999.999.999".toList = "999.999.999.999".toList ∧
    extract_ip "from 256.0.0.999 port".toList = "256.0.0.999".toList ∧
    extract_ip "1234.1.1.1".toList = [] ∧
    extract_ip "1.2.3.4567".toList = [] ∧
    extract_ip "a1.2.3.4".toList = [] ∧
    extract_ip "1.2.3.4_".toList = [] ∧
    extract_ip "1.2.3.4b 5.6.7.8".toList = "5.6.7.8".toList ∧
    extract_ip "1.2.3.4.5".toList = "1.2.3.4".toList := by
  refine ⟨extract_ip_eq_nil_iff line, ?_, by decide, by decide, by decide, by decide,
    by decide, by decide, by decide, by decide⟩
  intro hne
  rcases extract_ip_spec line with ⟨h1, _⟩ | ⟨pre, post, ho, hmin⟩
  · exact absurd h1 hne
  · have hb := (isQuadOccurrence_iff _ _ _).mp ho.2
    refine ⟨pre, post, ho, hb.2.1, hb.2.2, ?_⟩
    intro pre2 m2 post2 ho2
    exact ⟨hmin pre2 m2 post2 ho2, fun hl => occursAt_unique line pre _ post pre2 m2 post2 ho ho2 hl⟩

/-- C4, at a line with two dotted quads: the result occurs in the line between
word boundaries and no occurrence starts before it. -/
theorem C4_extract_ip_witness :
    extract_ip "from 10.0.0.5 to 10.0.0.6".toList = "10.0.0.5".toList ∧
    ∃ pre post,
      OccursAt "from 10.0.0.5 to 10.0.0.6".toList pre
        (extract_ip "from 10.0.0.5 to 10.0.0.6".toList) post ∧
      lastIsWord pre = false ∧ headIsWord post = false ∧
      ∀ pre2 m2 post2, OccursAt "from 10.0.0.5 to 10.0.0.6".toList pre2 m2 post2 →
        pre.length ≤ pre2.length ∧
        (pre2.length = pre.length → m2 = extract_ip "from 10.0.0.5 to 10.0.0.6".toList) :=
  ⟨by decide, (C4_extract_ip "from 10.0.0.5 to 10.0.0.6".toList).2.1 (by decide)⟩

/-- C5: one iteration of the loop on a line that has "failed password" (after
lowercasing) adds 1 to the run's failed-login count; when the line has a dotted
quad between word boundaries, the count stored under the address that
`extract_ip` returns goes up by 1 (from 0 when the address is new) and no other
address changes; when it has none the address map stays as it is. A line without
"failed password" leaves the address map and the failed-login count as they are.
The two lines of the specification give the address 10.0.0.5 with count 1, and a
failed-login count of 1 with no address. -/
theorem C5_address_count (st : LoopState) (line : Str) :
    (mentions "failed password" line = true →
      (loop_body st line).failed_this = st.failed_this + 1 ∧
      ((∃ pre m post, OccursAt line pre m post) →
        extract_ip line ≠ [] ∧
        lookup (loop_body st line).ip_this (extract_ip line) =
          some ((lookup st.ip_this (extract_ip line)).getD 0 + 1) ∧
        ∀ k, k ≠ extract_ip line → lookup (loop_body st line).ip_this k = lookup st.ip_this k) ∧
      ((¬ ∃ pre m post, OccursAt line pre m post) →
        (loop_body st line).ip_this = st.ip_this)) ∧
    (mentions "failed password" line = false →
      (loop_body st line).ip_this = st.ip_this ∧
      (loop_body st line).failed_this = st.failed_this) ∧
    extract_ip "Failed password for user from 10.0.0.5 port 22".toList = "10.0.0.5".toList ∧
    loop_body {} "Failed password for user from 10.0.0.5 port 22".toList =
      { failed_this := 1, ip_this := [("10.0.0.5".toList, 1)],
        total := { failed_logins := 1, ipCount := [("10.0.0.5".toList, 1)] } } ∧
    loop_body {} "Failed password attempt, no IP here".toList =
      { failed_this := 1, ip_this := [], total := { failed_logins := 1, ipCount := [] } } := by
  refine ⟨?_, ?_, by decide, by decide, by decide⟩
  · intro hm
    refine ⟨by rw [loop_body_failed_this, hm]; rfl, ?_, ?_⟩
    · intro hex
      have hne : extract_ip line ≠ [] := fun h => (extract_ip_eq_nil_iff line).mp h hex
      have hip : (loop_body st line).ip_this = incr st.ip_this (extract_ip line) := by
        rw [loop_body_ip_this, if_pos ⟨hm, hne⟩]
      rw [hip]
      exact ⟨hne, lookup_incr_self _ _, fun k hk => lookup_incr_other _ _ k hk⟩
    · intro hex
      have hnil : extract_ip line = [] := (extract_ip_eq_nil_iff line).mpr hex
      rw [loop_body_ip_this, if_neg (fun h => h.2 hnil)]
  · intro hm
    refine ⟨?_, by rw [loop_body_failed_this, hm]; simp⟩
    rw [loop_body_ip_this, if_neg (fun h => by rw [hm] at h; exact absurd h.1 (by decide))]

/-- C5, at the first line of the specification: the line has "failed password"
and the dotted quad 10.0.0.5 between " from " and " port 22", so the count of the
returned address goes from nothing to 1. -/
theorem C5_address_count_witness :
    lookup (loop_body {} "Failed password for user from 10.0.0.5 port 22".toList).ip_this
        (extract_ip "Failed password for user from 10.0.0.5 port 22".toList) =
      some ((lookup [] (extract_ip "Failed password for user from 10.0.0.5 port 22".toList)).getD
        0 + 1) ∧
    (loop_body { ip_this := [("1.1.1.1".toList, 7)] }
        "Failed password attempt, no IP here".toList).ip_this = [("1.1.1.1".toList, 7)] :=
  ⟨(((C5_address_count {} "Failed password for user from 10.0.0.5 port 22".toList).1
      (by decide)).2.1
      ⟨"Failed password for user from ".toList, "10.0.0.5".toList, " port 22".toList,
        by decide,
        ⟨"10".toList, "0".toList, "0".toList, "5".toList, by decide, by decide, by decide,
          by decide, by decide⟩,
        by decide, by decide⟩).2.1,
    ((C5_address_count { ip_this := [("1.1.1.1".toList, 7)] }
      "Failed password attempt, no IP here".toList).1 (by decide)).2.2
      ((extract_ip_eq_nil_iff _).mp (by decide))⟩

/-- C6: a failed open writes nothing to the sink and returns false; after a
completed scan, when none of the three thresholds fired the sink text is empty
and the result is false, and when one fired the sink text is the fired alert
lines, in the order failed-login, error, critical, each ended by a newline,
followed by the one line "----", and the result is true; no fired line is the
separator or holds a newline. -/
theorem C6_sink_text (col : Colors) (cfg : Config) (total : Counters) (lines : List Str) :
    ((scan_file col cfg total none).alertOut = [] ∧
      (scan_file col cfg total none).ret = false) ∧
    (¬ (scan_loop lines total).failed_this > cfg.failed_threshold ∧
        ¬ (scan_loop lines total).errors_this > 0 ∧
        ¬ (scan_loop lines total).criticals_this > 0 →
      (scan_file col cfg total (some lines)).alertOut = [] ∧
      (scan_file col cfg total (some lines)).ret = false) ∧
    ((scan_loop lines total).failed_this > cfg.failed_threshold ∨
        (scan_loop lines total).errors_this > 0 ∨
        (scan_loop lines total).criticals_this > 0 →
      (scan_file col cfg total (some lines)).alertOut =
        unlines
          ((if (scan_loop lines total).failed_this > cfg.failed_threshold
              then [failed_msg (scan_loop lines total).failed_this] else []) ++
            (if (scan_loop lines total).errors_this > 0
              then [error_msg (scan_loop lines total).errors_this] else []) ++
            (if (scan_loop lines total).criticals_this > 0
              then [critical_msg (scan_loop lines total).criticals_this] else []) ++
            ["----".toList]) ∧
      (scan_file col cfg total (some lines)).ret = true) ∧
    (∀ n : Int, failed_msg n ≠ "----".toList ∧ error_msg n ≠ "----".toList ∧
      critical_msg n ≠ "----".toList ∧
      '\n' ∉ failed_msg n ∧ '\n' ∉ error_msg n ∧ '\n' ∉ critical_msg n) := by
  refine ⟨⟨rfl, rfl⟩, ?_, ?_, ?_⟩
  · rintro ⟨hf, he, hc⟩
    simp only [scan_file, report_alertOut, report_ret]
    simp [fired, hf, he, hc, unlines]
  · intro h
    have hne : fired (scan_loop lines total).failed_this (scan_loop lines total).errors_this
        (scan_loop lines total).criticals_this cfg.failed_threshold ≠ [] := by
      intro hnil
      have hm := mem_fired (scan_loop lines total).failed_this
        (scan_loop lines total).errors_this (scan_loop lines total).criticals_this
        cfg.failed_threshold
      rw [hnil] at hm
      rcases h with h | h | h
      · exact absurd ((hm _).mpr (Or.inl ⟨h, rfl⟩)) (by simp)
      · exact absurd ((hm _).mpr (Or.inr (Or.inl ⟨h, rfl⟩))) (by simp)
      · exact absurd ((hm _).mpr (Or.inr (Or.inr ⟨h, rfl⟩))) (by simp)
    simp only [scan_file, report_alertOut, report_ret, hne, if_false]
    exact ⟨rfl, by simpa using hne⟩
  · intro n
    exact ⟨failed_msg_ne_separator n, error_msg_ne_separator n, critical_msg_ne_separator n,
      newline_not_mem_failed_msg n, newline_not_mem_error_msg n,
      newline_not_mem_critical_msg n⟩

/-- C6, at two files under the default threshold: a line without any pattern
leaves the sink empty, and an error line gives its alert and the separator. -/
theorem C6_sink_text_witness :
    ((scan_file {} {} {} (some ["all fine".toList])).alertOut = [] ∧
      (scan_file {} {} {} (some ["all fine".toList])).ret = false) ∧
    ((scan_file {} {} {} (some ["disk error".toList])).alertOut =
        "ALERT: 1 error(s)\n----\n".toList ∧
      (scan_file {} {} {} (some ["disk error".toList])).ret = true) :=
  ⟨(C6_sink_text {} {} {} ["all fine".toList]).2.1 (by decide),
    have h := (C6_sink_text {} {} {} ["disk error".toList]).2.2.1 (by decide)
    ⟨h.1.trans (by decide), h.2⟩⟩

/-- C7: when the arguments parse to a configuration with threshold 3, the sink
can be opened and the input file has exactly 4 lines with "failed password",
exactly 1 with "error" and none with "critical" (after lowercasing), then the run
counts are 4, 1 and 0, the sink gains exactly the three lines
"ALERT: Multiple failed logins (4)", "ALERT: 1 error(s)" and "----", the scan
returns true, and the process ends with exit code 0. -/
theorem C7_end_to_end (argv : List Str) (cfg : Config) (w : World) (lines : List Str)
    (hp : parse_args argv = Parsed.ok cfg) (ht : cfg.failed_threshold = 3)
    (hs : w.sink_ok = true) (hf : w.open_in cfg.filename = some lines)
    (h4 : lines.countP (mentions "failed password") = 4)
    (h1 : lines.countP (mentions "error") = 1)
    (h0 : lines.countP (mentions "critical") = 0) :
    (scan_loop lines {}).failed_this = 4 ∧
    (scan_loop lines {}).errors_this = 1 ∧
    (scan_loop lines {}).criticals_this = 0 ∧
    (main argv w).sink =
      "ALERT: Multiple failed logins (4)\nALERT: 1 error(s)\n----\n".toList ∧
    text_lines (main argv w).sink =
      ["ALERT: Multiple failed logins (4)".toList, "ALERT: 1 error(s)".toList,
        "----".toList] ∧
    (scan_file (colors_of cfg) cfg {} (some lines)).ret = true ∧
    (main argv w).outcome = Outcome.exit 0 := by
  have e4 : (scan_loop lines {}).failed_this = 4 := by
    rw [scan_loop_failed_this, h4]; rfl
  have e1 : (scan_loop lines {}).errors_this = 1 := by
    rw [scan_loop_errors_this, h1]; rfl
  have e0 : (scan_loop lines {}).criticals_this = 0 := by
    rw [scan_loop_criticals_this, h0]; rfl
  have hsink : (main argv w).sink =
      "ALERT: Multiple failed logins (4)\nALERT: 1 error(s)\n----\n".toList := by
    simp only [main, hp, hs, hf, if_true, scan_file, report_alertOut, e4, e1, e0, ht]
    decide
  refine ⟨e4, e1, e0, hsink, ?_, ?_, ?_⟩
  · rw [hsink]; decide
  · simp only [scan_file, report_ret, e4, e1, e0, ht]
    decide
  · simp only [main, hp, hs, if_true]

/-- C7, at a concrete run: no arguments, a sink that opens, and a `system.log` of
five lines. -/
theorem C7_end_to_end_witness :
    (main ["./log_monitor".toList]
      ⟨fun _ => some ["Failed password for root from 10.0.0.5 port 22".toList,
        "Failed password for root from 10.0.0.5 port 22".toList,
        "failed password for bob from 10.0.0.6 port 22".toList,
        "FAILED PASSWORD for eve".toList,
        "disk Error on sda".toList], true⟩).outcome = Outcome.exit 0 ∧
    (main ["./log_monitor".toList]
      ⟨fun _ => some ["Failed password for root from 10.0.0.5 port 22".toList,
        "Failed password for root from 10.0.0.5 port 22".toList,
        "failed password for bob from 10.0.0.6 port 22".toList,
        "FAILED PASSWORD for eve".toList,
        "disk Error on sda".toList], true⟩).sink =
      "ALERT: Multiple failed logins (4)\nALERT: 1 error(s)\n----\n".toList :=
  have h := C7_end_to_end ["./log_monitor".toList] {}
    ⟨fun _ => some ["Failed password for root from 10.0.0.5 port 22".toList,
      "Failed password for root from 10.0.0.5 port 22".toList,
      "failed password for bob from 10.0.0.6 port 22".toList,
      "FAILED PASSWORD for eve".toList,
      "disk Error on sda".toList], true⟩
    ["Failed password for root from 10.0.0.5 port 22".toList,
      "Failed password for root from 10.0.0.5 port 22".toList,
      "failed password for bob from 10.0.0.6 port 22".toList,
      "FAILED PASSWORD for eve".toList,
      "disk Error on sda".toList]
    (by decide) (by decide) (by decide) (by decide) (by decide) (by decide) (by decide)
  ⟨h.2.2.2.2.2.2, h.2.2.2.1⟩

/-- C8: a second scan of the same lines, started from the cumulative counters
that the first one left, has the same run-scoped counts and address map, writes
the same sink text and standard output and returns the same flag as the first,
whatever the cumulative counters were at the start; and from zero cumulative
counters the cumulative failed-login count after both scans is twice the
failed-login count of one run. -/
theorem C8_repeated_scan (col : Colors) (cfg : Config) (total : Counters)
    (lines : List Str) :
    ((scan_loop lines (scan_file col cfg total (some lines)).total).failed_this =
        (scan_loop lines total).failed_this ∧
      (scan_loop lines (scan_file col cfg total (some lines)).total).errors_this =
        (scan_loop lines total).errors_this ∧
      (scan_loop lines (scan_file col cfg total (some lines)).total).criticals_this =
        (scan_loop lines total).criticals_this ∧
      (scan_loop lines (scan_file col cfg total (some lines)).total).ip_this =
        (scan_loop lines total).ip_this) ∧
    (scan_file col cfg (scan_file col cfg total (some lines)).total (some lines)).alertOut =
      (scan_file col cfg total (some lines)).alertOut ∧
    (scan_file col cfg (scan_file col cfg total (some lines)).total (some lines)).ret =
      (scan_file col cfg total (some lines)).ret ∧
    (scan_file col cfg (scan_file col cfg total (some lines)).total (some lines)).cout =
      (scan_file col cfg total (some lines)).cout ∧
    (scan_file col cfg (scan_file col cfg {} (some lines)).total
        (some lines)).total.failed_logins =
      2 * (scan_loop lines {}).failed_this := by
  have hi := scan_loop_run_indep lines (scan_file col cfg total (some lines)).total total
  have hr := report_congr col cfg
    (scan_loop lines (scan_file col cfg total (some lines)).total) (scan_loop lines total)
    hi.1 hi.2.1 hi.2.2.1 hi.2.2.2
  refine ⟨hi, hr.2.1, hr.1, hr.2.2.1, ?_⟩
  have ht : ∀ t : Counters, (scan_file col cfg t (some lines)).total.failed_logins =
      t.failed_logins + (lines.countP (mentions "failed password") : Nat) := by
    intro t
    simp only [scan_file, report, scan_loop]
    rw [foldl_total_failed]
  rw [ht, ht, scan_loop_failed_this]
  simp
  ring

/-- C9: after a completed scan whose per-run address map is not empty, the text
that `scan_file` writes to standard output is the summary, the alert banners, the
heading "Suspicious IPs" and then one line "   address → count attempts" for
each element of a list that is a permutation of the map's entries (every address
once, with its own count) and along which the counts never increase, followed by
the closing banner when an alert fired. Sorting any ordering of a map's entries
gives such a list, whatever order the map iterates in, and for the map with
1.2.3.4 at 2 and 5.6.7.8 at 5, in either order, 5.6.7.8 comes first. -/
theorem C9_sorted_listing (col : Colors) (cfg : Config) (total : Counters)
    (lines : List Str) (hne : (scan_loop lines total).ip_this ≠ []) :
    (∃ v : List (Str × Int),
      v.Perm (scan_loop lines total).ip_this ∧
      v.Pairwise (fun a b => a.2 ≥ b.2) ∧
      (v.map Prod.fst).Nodup ∧
      (scan_file col cfg total (some lines)).cout =
        "\n----------------------------------\n".toList ++ "Scan Results:\n".toList ++
        "  Failed logins: ".toList ++ put_int (scan_loop lines total).failed_this ++
        "\n".toList ++
        "  Errors:        ".toList ++ put_int (scan_loop lines total).errors_this ++
        "\n".toList ++
        "  Criticals:     ".toList ++ put_int (scan_loop lines total).criticals_this ++
        "\n".toList ++
        "----------------------------------\n".toList ++
        (if (scan_loop lines total).failed_this > cfg.failed_threshold then
          col.YEL ++ "\xe2\x9a\xa0\xef\xb8\x8f ALERT: Multiple failed logins (".toList ++
            put_int (scan_loop lines total).failed_this ++ ")\n".toList ++ col.RST
          else []) ++
        (if (scan_loop lines total).errors_this > 0 then
          col.YEL ++ "\xe2\x9a\xa0\xef\xb8\x8f ALERT: ".toList ++
            put_int (scan_loop lines total).errors_this ++ " error(s)\n".toList ++ col.RST
          else []) ++
        (if (scan_loop lines total).criticals_this > 0 then
          col.RED ++ "\xf0\x9f\x9a\xa8 CRITICAL: ".toList ++
            put_int (scan_loop lines total).criticals_this ++
            " critical issue(s)\n".toList ++ col.RST
          else []) ++
        ("\n\xf0\x9f\x94\x8e Suspicious IPs:\n".toList ++
          (v.map (fun p => "   ".toList ++ p.1 ++ " \xe2\x86\x92 ".toList ++ put_int p.2 ++
            " attempts\n".toList)).flatten) ++
        (if (scan_loop lines total).failed_this > cfg.failed_threshold ∨
            (scan_loop lines total).errors_this > 0 ∨
            (scan_loop lines total).criticals_this > 0 then
          col.GRN ++ "\xe2\x9c\x85 Alerts saved to alerts.log\n".toList ++ col.RST
          else [])) ∧
    (∀ m v0 : IpMap, v0.Perm m →
      (sort by_count_desc v0).Perm m ∧
      (sort by_count_desc v0).Pairwise (fun a b => a.2 ≥ b.2) ∧
      ((m.map Prod.fst).Nodup → ((sort by_count_desc v0).map Prod.fst).Nodup)) ∧
    sorted_ips [("1.2.3.4".toList, 2), ("5.6.7.8".toList, 5)] =
      [("5.6.7.8".toList, 5), ("1.2.3.4".toList, 2)] ∧
    sorted_ips [("5.6.7.8".toList, 5), ("1.2.3.4".toList, 2)] =
      [("5.6.7.8".toList, 5), ("1.2.3.4".toList, 2)] := by
  refine ⟨⟨sorted_ips (scan_loop lines total).ip_this, sort_perm _ _, sort_pairwise _, ?_, ?_⟩,
    ?_, by decide, by decide⟩
  · exact (((sort_perm by_count_desc _).map Prod.fst).nodup_iff).mpr
      (scan_loop_ip_this_nodup lines total)
  · have hl : (fun p : Str × Int => "   ".toList ++ p.1 ++ " \xe2\x86\x92 ".toList ++
        put_int p.2 ++ " attempts\n".toList) = ip_line := rfl
    rw [hl]
    simp only [scan_file, report, ip_report, hne, ne_eq, not_false_eq_true, if_true]
    by_cases hf : (scan_loop lines total).failed_this > cfg.failed_threshold <;>
    by_cases he : (scan_loop lines total).errors_this > 0 <;>
    by_cases hc : (scan_loop lines total).criticals_this > 0 <;>
    simp only [hf, he, hc, decide_eq_true_eq, Bool.or_eq_true, if_true, if_false, or_true,
      true_or, or_self, or_false, false_or, List.append_assoc]
  · intro m v0 hv
    refine ⟨(sort_perm _ v0).trans hv, sort_pairwise v0, fun hn => ?_⟩
    exact ((((sort_perm by_count_desc v0).trans hv).map Prod.fst).nodup_iff).mpr hn

set_option maxRecDepth 20000 in
/-- C9, at a file whose scan leaves the map of the sorting scenario (1.2.3.4 at 2,
5.6.7.8 at 5), printed without colour: the whole standard output. -/
theorem C9_sorted_listing_witness :
    (scan_file { RED := [], YEL := [], GRN := [], CYAN := [], DIM := [], RST := [] } {} {}
      (some ["failed password from 1.2.3.4".toList, "failed password from 5.6.7.8".toList,
        "failed password from 5.6.7.8".toList, "failed password from 5.6.7.8".toList,
        "failed password from 1.2.3.4".toList, "failed password from 5.6.7.8".toList,
        "failed password from 5.6.7.8".toList])).cout =
      ("\n----------------------------------\nScan Results:\n  Failed logins: 7\n" ++
        "  Errors:        0\n  Criticals:     0\n----------------------------------\n" ++
        "\xe2\x9a\xa0\xef\xb8\x8f ALERT: Multiple failed logins (7)\n" ++
        "\n\xf0\x9f\x94\x8e Suspicious IPs:\n" ++
        "   5.6.7.8 \xe2\x86\x92 5 attempts\n   1.2.3.4 \xe2\x86\x92 2 attempts\n" ++
        "\xe2\x9c\x85 Alerts saved to alerts.log\n").toList := by
  obtain ⟨v, hp, hs, _, hc⟩ :=
    (C9_sorted_listing { RED := [], YEL := [], GRN := [], CYAN := [], DIM := [], RST := [] } {} {}
      ["failed password from 1.2.3.4".toList, "failed password from 5.6.7.8".toList,
        "failed password from 5.6.7.8".toList, "failed password from 5.6.7.8".toList,
        "failed password from 1.2.3.4".toList, "failed password from 5.6.7.8".toList,
        "failed password from 5.6.7.8".toList] (by decide)).1
  have hm : (scan_loop ["failed password from 1.2.3.4".toList,
      "failed password from 5.6.7.8".toList, "failed password from 5.6.7.8".toList,
      "failed password from 5.6.7.8".toList, "failed password from 1.2.3.4".toList,
      "failed password from 5.6.7.8".toList, "failed password from 5.6.7.8".toList] {}).ip_this =
      [("1.2.3.4".toList, 2), ("5.6.7.8".toList, 5)] := by decide
  rw [hm] at hp
  have hv := perm_pair_sorted _ _ v hp hs (by decide)
  rw [hv] at hc
  exact hc.trans (by decide)

/-- C10 (as amended): when the input cannot be opened, `scan_file` prints no scan
report, appends nothing to the sink, leaves the cumulative counters as they
were, writes the "Failed to open" message with the file name to standard error
and returns false, which is also what every completed scan returns on which no
threshold fired. -/
theorem C10_open_failure (col : Colors) (cfg : Config) (total : Counters) :
    (scan_file col cfg total none).cout = [] ∧
    (scan_file col cfg total none).alertOut = [] ∧
    (scan_file col cfg total none).total = total ∧
    (scan_file col cfg total none).cerr =
      "\xe2\x9d\x8c Failed to open ".toList ++ cfg.filename ++ "\n".toList ∧
    (scan_file col cfg total none).ret = false ∧
    (∀ lines : List Str,
      ¬ (scan_loop lines total).failed_this > cfg.failed_threshold ∧
        ¬ (scan_loop lines total).errors_this > 0 ∧
        ¬ (scan_loop lines total).criticals_this > 0 →
      (scan_file col cfg total (some lines)).ret = (scan_file col cfg total none).ret) := by
  refine ⟨rfl, rfl, rfl, rfl, rfl, ?_⟩
  rintro lines ⟨hf, he, hc⟩
  simp only [scan_file, report_ret]
  simp [fired, hf, he, hc]

/-- C10 (as amended), at the default configuration: a file that cannot be opened
and a file of one harmless line give the same returned flag. -/
theorem C10_open_failure_witness :
    (scan_file {} {} {} (some ["all fine".toList])).ret = (scan_file {} {} {} none).ret :=
  (C10_open_failure {} {} {}).2.2.2.2.2 ["all fine".toList] (by decide)

/-- C10 (the claim as stated fails): the caller of `scan_file` gets the same
returned flag, the same cumulative counters and the same sink text from a file
that cannot be opened as from the completed scan of an empty file, so the result
does not tell the failure apart from a completed scan. -/
theorem C10_failure_not_distinguished :
    (scan_file {} {} {} none).ret = (scan_file {} {} {} (some [])).ret ∧
    (scan_file {} {} {} none).total = (scan_file {} {} {} (some [])).total ∧
    (scan_file {} {} {} none).alertOut = (scan_file {} {} {} (some [])).alertOut := by
  decide

/-- C12: when no argument after the program name is "--file", "--failed",
"--no-color" or "--help", `parse_args` gives the default configuration (file
"system.log", threshold 3, colour on); whenever the loop reads an argument that is
none of the four, it goes on with the configuration unchanged; and a last
argument "--file" or "--failed" without a value changes nothing. -/
theorem C12_unrecognized_ignored :
    (∀ argv : List Str, (∀ a ∈ argv.drop 1, is_flag a = false) →
      parse_args argv =
        Parsed.ok { filename := "system.log".toList, failed_threshold := 3, color := true }) ∧
    (∀ (a : Str) (rest : List Str) (cfg : Config), is_flag a = false →
      parse_loop (a :: rest) cfg = parse_loop rest cfg) ∧
    (∀ cfg : Config, parse_loop ["--file".toList] cfg = Parsed.ok cfg ∧
      parse_loop ["--failed".toList] cfg = Parsed.ok cfg) := by
  refine ⟨?_, parse_loop_unrecognized, parse_loop_trailing⟩
  intro argv h
  exact parse_loop_no_flags (argv.drop 1) {} h

/-- C12, at concrete argument lists: unknown arguments alone give the defaults,
an unknown argument between two flags leaves their effect as it is, and a
trailing "--failed" is ignored. -/
theorem C12_unrecognized_ignored_witness :
    parse_args ["./log_monitor".toList, "-v".toList, "extra".toList] = Parsed.ok {} ∧
    parse_loop ["junk".toList, "--no-color".toList] {} = parse_loop ["--no-color".toList] {} ∧
    parse_args ["./log_monitor".toList, "--file".toList, "a.log".toList, "--failed".toList] =
      Parsed.ok { filename := "a.log".toList } :=
  ⟨C12_unrecognized_ignored.1 ["./log_monitor".toList, "-v".toList, "extra".toList]
      (by decide),
    C12_unrecognized_ignored.2.1 "junk".toList ["--no-color".toList] {} (by decide),
    (C12_unrecognized_ignored.2.2 { filename := "a.log".toList }).2⟩

/-- C13: for arguments on which `stoi` does not throw and that do not contain
"--help", `main` returns 1 exactly when "alerts.log" cannot be opened, and then
nothing was scanned: nothing is appended, no counters exist, and the run is the
same whatever the input files hold; when the sink can be opened `main` returns 0,
also when the input file cannot be opened. -/
theorem C13_exit_code (argv : List Str) (w : World)
    (hp : ∀ e, parse_args argv ≠ Parsed.threw e) (hh : "--help".toList ∉ argv) :
    ((main argv w).outcome = Outcome.exit 1 ↔ w.sink_ok = false) ∧
    (w.sink_ok = false →
      (main argv w).sink = [] ∧ (main argv w).total = none ∧
      ∀ w2 : World, w2.sink_ok = false → main argv w2 = main argv w) ∧
    (w.sink_ok = true → (main argv w).outcome = Outcome.exit 0) ∧
    (w.sink_ok = true → (∀ f, w.open_in f = none) →
      (main argv w).outcome = Outcome.exit 0 ∧ (main argv w).sink = []) := by
  obtain ⟨cfg, hc⟩ := parse_args_ok_of argv hp hh
  cases hs : w.sink_ok with
  | false =>
    refine ⟨by simp [main, hc, hs], ?_, by simp, by simp⟩
    intro _
    refine ⟨by simp [main, hc, hs], by simp [main, hc, hs], ?_⟩
    intro w2 h2
    simp [main, hc, hs, h2]
  | true =>
    refine ⟨by simp [main, hc, hs], by simp, ?_, ?_⟩
    · intro _; simp [main, hc, hs]
    · intro _ hf
      simp [main, hc, hs, hf, scan_file]

/-- C13, at two concrete runs without arguments: a sink that cannot be opened
gives exit code 1, and a missing input file with a sink that opens gives 0. -/
theorem C13_exit_code_witness :
    (main ["./log_monitor".toList] ⟨fun _ => some ["disk error".toList], false⟩).outcome =
      Outcome.exit 1 ∧
    (main ["./log_monitor".toList] ⟨fun _ => none, true⟩).outcome = Outcome.exit 0 :=
  ⟨(C13_exit_code ["./log_monitor".toList] ⟨fun _ => some ["disk error".toList], false⟩
      (fun e => by cases e <;> decide) (by decide)).1.mpr rfl,
    (C13_exit_code ["./log_monitor".toList] ⟨fun _ => none, true⟩
      (fun e => by cases e <;> decide) (by decide)).2.2.1 rfl⟩

/-- C14: after a completed scan, from any cumulative counters, each of the three
cumulative counters is its previous value plus the run's count; for every address
the cumulative count is its previous value plus the count in the per-run map
(absent entries counting as 0), an address of this run has an entry afterwards,
and the entry of an address that this run did not see is as it was. -/
theorem C14_cumulative_counters (col : Colors) (cfg : Config) (total : Counters)
    (lines : List Str) :
    (scan_file col cfg total (some lines)).total.failed_logins =
      total.failed_logins + (scan_loop lines total).failed_this ∧
    (scan_file col cfg total (some lines)).total.errors =
      total.errors + (scan_loop lines total).errors_this ∧
    (scan_file col cfg total (some lines)).total.criticals =
      total.criticals + (scan_loop lines total).criticals_this ∧
    (∀ k : Str, count_of (scan_file col cfg total (some lines)).total.ipCount k =
      count_of total.ipCount k + count_of (scan_loop lines total).ip_this k) ∧
    (∀ k : Str, lookup (scan_loop lines total).ip_this k ≠ none →
      lookup (scan_file col cfg total (some lines)).total.ipCount k =
        some (count_of total.ipCount k + count_of (scan_loop lines total).ip_this k)) ∧
    (∀ k : Str, lookup (scan_loop lines total).ip_this k = none →
      lookup (scan_file col cfg total (some lines)).total.ipCount k =
        lookup total.ipCount k) := by
  have ht : (scan_file col cfg total (some lines)).total = (scan_loop lines total).total := rfl
  rw [ht]
  refine ⟨?_, ?_, ?_, ?_, ?_, ?_⟩
  · rw [scan_loop_failed_this, scan_loop, foldl_total_failed]
  · rw [scan_loop_errors_this, scan_loop, foldl_total_errors]
  · rw [scan_loop_criticals_this, scan_loop, foldl_total_criticals]
  · intro k
    rw [scan_loop_count_of, scan_loop, foldl_total_ipCount_eq, count_of_foldl_incr]
  · intro k hk
    rw [scan_loop_lookup] at hk
    have hc : (hit_keys lines).count k ≠ 0 := fun h => hk (by rw [if_pos h])
    rw [scan_loop_count_of, scan_loop, foldl_total_ipCount_eq, lookup_foldl_incr, if_neg hc]
  · intro k hk
    rw [scan_loop_lookup] at hk
    have hc : (hit_keys lines).count k = 0 := by
      by_contra h
      rw [if_neg h] at hk
      exact absurd hk (by simp)
    rw [scan_loop, foldl_total_ipCount_eq, lookup_foldl_incr, if_pos hc]

/-- C14, at a scan of three lines from cumulative counters that already hold
10.0.0.5 at 4 and 9.9.9.9 at 1: the first goes to 6, the second stays at 1. -/
theorem C14_cumulative_counters_witness :
    lookup (scan_file {} {}
        { failed_logins := 4, ipCount := [("10.0.0.5".toList, 4), ("9.9.9.9".toList, 1)] }
        (some ["failed password from 10.0.0.5".toList, "Failed password from 10.0.0.5".toList,
          "disk error".toList])).total.ipCount "10.0.0.5".toList = some 6 ∧
    lookup (scan_file {} {}
        { failed_logins := 4, ipCount := [("10.0.0.5".toList, 4), ("9.9.9.9".toList, 1)] }
        (some ["failed password from 10.0.0.5".toList, "Failed password from 10.0.0.5".toList,
          "disk error".toList])).total.ipCount "9.9.9.9".toList = some 1 :=
  ⟨((C14_cumulative_counters {} {}
      { failed_logins := 4, ipCount := [("10.0.0.5".toList, 4), ("9.9.9.9".toList, 1)] }
      ["failed password from 10.0.0.5".toList, "Failed password from 10.0.0.5".toList,
        "disk error".toList]).2.2.2.2.1 "10.0.0.5".toList (by decide)).trans (by decide),
    ((C14_cumulative_counters {} {}
      { failed_logins := 4, ipCount := [("10.0.0.5".toList, 4), ("9.9.9.9".toList, 1)] }
      ["failed password from 10.0.0.5".toList, "Failed password from 10.0.0.5".toList,
        "disk error".toList]).2.2.2.2.2 "9.9.9.9".toList (by decide)).trans (by decide)⟩

/-- C15: after a completed scan every entry of the per-run address map has a count
of at least 1 and a key that is a dotted quad of digits and exactly three periods,
7 to 15 bytes long, and a substring of a failed-login line of the file; the sum of
the counts is at most the run's failed-login count, and equals it exactly when
every failed-login line has a dotted quad between word boundaries. -/
theorem C15_address_map_invariant (lines : List Str) (total : Counters) :
    (∀ (k : Str) (v : Int), (k, v) ∈ (scan_loop lines total).ip_this →
      1 ≤ v ∧ k ≠ [] ∧ QuadShape k ∧ 7 ≤ k.length ∧ k.length ≤ 15 ∧
      (∀ c ∈ k, isDigit c = true ∨ c = '.') ∧ k.count '.' = 3 ∧
      ∃ l ∈ lines, mentions "failed password" l = true ∧ k <:+: l) ∧
    sum_counts (scan_loop lines total).ip_this ≤ (scan_loop lines total).failed_this ∧
    (sum_counts (scan_loop lines total).ip_this = (scan_loop lines total).failed_this ↔
      ∀ l ∈ lines, mentions "failed password" l = true →
        ∃ pre m post, OccursAt l pre m post) := by
  have hip : (scan_loop lines total).ip_this = (hit_keys lines).foldl incr [] := by
    rw [scan_loop, foldl_ip_this_eq]
  have hsum : sum_counts (scan_loop lines total).ip_this = ((hit_keys lines).length : Nat) := by
    rw [hip, sum_counts_foldl_incr]
    simp [sum_counts]
  refine ⟨?_, ?_, ?_⟩
  · intro k v hkv
    rw [hip] at hkv
    have hv : 1 ≤ v := foldl_incr_values_pos (hit_keys lines) [] (by simp) (k, v) hkv
    have hk : k ∈ hit_keys lines := by
      rcases foldl_incr_keys (hit_keys lines) [] k (List.mem_map_of_mem Prod.fst hkv) with h | h
      · simp at h
      · exact h
    obtain ⟨l, hl, hm, hne, rfl⟩ := (mem_hit_keys lines k).mp hk
    obtain ⟨pre, post, ho⟩ := occursAt_of_extract_ip l hne
    have hq := quadShape_facts _ ho.2.1
    exact ⟨hv, hne, ho.2.1, hq.1, hq.2.1, hq.2.2.1, hq.2.2.2, l, hl, hm,
      ⟨pre, post, ho.1.symm⟩⟩
  · rw [hsum, scan_loop_failed_this]
    exact_mod_cast (hit_keys_length lines).1
  · rw [hsum, scan_loop_failed_this]
    have h2 := (hit_keys_length lines).2
    constructor
    · intro h l hl hm
      have hne := h2.mp (by exact_mod_cast h) l hl hm
      obtain ⟨pre, post, ho⟩ := occursAt_of_extract_ip l hne
      exact ⟨pre, _, post, ho⟩
    · intro h
      have := h2.mpr (fun l hl hm he => (extract_ip_eq_nil_iff l).mp he (h l hl hm))
      exact_mod_cast this

/-- C15, at a file of three failed-login lines of which one has no address: the
key 10.0.0.5, stored with count 2, is a dotted quad with three periods, and the sum
of the counts differs from the failed-login count. -/
theorem C15_address_map_invariant_witness :
    QuadShape "10.0.0.5".toList ∧ ("10.0.0.5".toList).count '.' = 3 ∧
    sum_counts (scan_loop ["failed password from 10.0.0.5".toList,
      "Failed password, no address".toList, "failed password from 10.0.0.5 again".toList]
      {}).ip_this ≠
    (scan_loop ["failed password from 10.0.0.5".toList,
      "Failed password, no address".toList, "failed password from 10.0.0.5 again".toList]
      {}).failed_this :=
  have h := C15_address_map_invariant ["failed password from 10.0.0.5".toList,
      "Failed password, no address".toList, "failed password from 10.0.0.5 again".toList] {}
  have h1 := h.1 "10.0.0.5".toList 2 (by decide)
  ⟨h1.2.2.1, h1.2.2.2.2.2.2.1, fun e =>
    absurd ((h.2.2.mp e) "Failed password, no address".toList (by decide) (by decide))
      (fun hex => (extract_ip_eq_nil_iff _).mp (by decide) hex)⟩

/-- C16: the run's failed-login, error and critical counts and the per-run count of
every address after scanning the lines `a` followed by the lines `b` are the sums
of those after scanning `a` and `b` alone; and scanning a permutation of the
lines gives the same three counts, the same entry for every address (so the same
entries in the map), the same sink text and the same returned flag. -/
theorem C16_additive_order_independent (a b : List Str) (total : Counters) (col : Colors)
    (cfg : Config) :
    ((scan_loop (a ++ b) total).failed_this =
        (scan_loop a total).failed_this + (scan_loop b total).failed_this ∧
      (scan_loop (a ++ b) total).errors_this =
        (scan_loop a total).errors_this + (scan_loop b total).errors_this ∧
      (scan_loop (a ++ b) total).criticals_this =
        (scan_loop a total).criticals_this + (scan_loop b total).criticals_this ∧
      ∀ k : Str, count_of (scan_loop (a ++ b) total).ip_this k =
        count_of (scan_loop a total).ip_this k + count_of (scan_loop b total).ip_this k) ∧
    (a.Perm b →
      (scan_loop a total).failed_this = (scan_loop b total).failed_this ∧
      (scan_loop a total).errors_this = (scan_loop b total).errors_this ∧
      (scan_loop a total).criticals_this = (scan_loop b total).criticals_this ∧
      (∀ k : Str, lookup (scan_loop a total).ip_this k = lookup (scan_loop b total).ip_this k) ∧
      ((scan_loop a total).ip_this).Perm (scan_loop b total).ip_this ∧
      (scan_file col cfg total (some a)).alertOut =
        (scan_file col cfg total (some b)).alertOut ∧
      (scan_file col cfg total (some a)).ret = (scan_file col cfg total (some b)).ret) := by
  constructor
  · refine ⟨?_, ?_, ?_, ?_⟩
    · simp only [scan_loop_failed_this, List.countP_append]
      push_cast
      rfl
    · simp only [scan_loop_errors_this, List.countP_append]
      push_cast
      rfl
    · simp only [scan_loop_criticals_this, List.countP_append]
      push_cast
      rfl
    · intro k
      simp only [scan_loop_count_of, hit_keys_append, List.count_append]
      push_cast
      rfl
  · intro hp
    have hf : (scan_loop a total).failed_this = (scan_loop b total).failed_this := by
      rw [scan_loop_failed_this, scan_loop_failed_this, hp.countP_eq]
    have he : (scan_loop a total).errors_this = (scan_loop b total).errors_this := by
      rw [scan_loop_errors_this, scan_loop_errors_this, hp.countP_eq]
    have hc : (scan_loop a total).criticals_this = (scan_loop b total).criticals_this := by
      rw [scan_loop_criticals_this, scan_loop_criticals_this, hp.countP_eq]
    have hl : ∀ k : Str,
        lookup (scan_loop a total).ip_this k = lookup (scan_loop b total).ip_this k := by
      intro k
      have hcnt : (hit_keys a).count k = (hit_keys b).count k := by
        rw [List.count_eq_countP, List.count_eq_countP]
        exact (hit_keys_perm a b hp).countP_eq _
      rw [scan_loop_lookup, scan_loop_lookup, hcnt]
    refine ⟨hf, he, hc, hl, ?_, ?_, ?_⟩
    · exact perm_of_lookup_eq _ _ (scan_loop_ip_this_nodup a total)
        (scan_loop_ip_this_nodup b total) hl
    · simp only [scan_file, report_alertOut, hf, he, hc]
    · simp only [scan_file, report_ret, hf, he, hc]

/-- C16, at two lines in both orders: the sink text is the same. -/
theorem C16_additive_order_independent_witness :
    (scan_file {} {} {}
      (some ["failed password from 1.2.3.4".toList, "disk error".toList])).alertOut =
    (scan_file {} {} {}
      (some ["disk error".toList, "failed password from 1.2.3.4".toList])).alertOut :=
  ((C16_additive_order_independent
    ["failed password from 1.2.3.4".toList, "disk error".toList]
    ["disk error".toList, "failed password from 1.2.3.4".toList] {} {} {}).2
    (List.Perm.swap _ _ [])).2.2.2.2.2.1

/-- C17: when the lines of `b` are those of `a` with some ASCII letters replaced by
their other-case counterparts, a scan of `b` leaves the same run counts, the same
per-run address map and the same cumulative counters as a scan of `a`, and so the
same sink text, standard output and returned flag. Lowercasing keeps the length
of a line, leaves a byte outside 'A'..'Z' as it is and adds 32 to one inside,
changes nothing but letter case, and gives the same when done twice. -/
theorem C17_case_invariance (a b : List Str) (h : case_variant_file a b = true)
    (col : Colors) (cfg : Config) (total : Counters) :
    ((scan_loop a total).failed_this = (scan_loop b total).failed_this ∧
      (scan_loop a total).errors_this = (scan_loop b total).errors_this ∧
      (scan_loop a total).criticals_this = (scan_loop b total).criticals_this ∧
      (scan_loop a total).ip_this = (scan_loop b total).ip_this) ∧
    (scan_file col cfg total (some a)).alertOut = (scan_file col cfg total (some b)).alertOut ∧
    (scan_file col cfg total (some a)).ret = (scan_file col cfg total (some b)).ret ∧
    scan_file col cfg total (some a) = scan_file col cfg total (some b) ∧
    (∀ s : Str, (to_lower_copy s).length = s.length) ∧
    (∀ (s : Str) (i : Nat) (c : Char), s[i]? = some c →
      (¬ (65 ≤ c.toNat ∧ c.toNat ≤ 90) → (to_lower_copy s)[i]? = some c) ∧
      (65 ≤ c.toNat ∧ c.toNat ≤ 90 →
        ∃ d, (to_lower_copy s)[i]? = some d ∧ d.toNat = c.toNat + 32)) ∧
    (∀ s : Str, case_variant s (to_lower_copy s) = true) ∧
    (∀ s : Str, to_lower_copy (to_lower_copy s) = to_lower_copy s) := by
  have hs : scan_loop a total = scan_loop b total := scan_loop_case a b _ h
  refine ⟨by rw [hs]; exact ⟨rfl, rfl, rfl, rfl⟩, by simp only [scan_file, hs],
    by simp only [scan_file, hs], by simp only [scan_file, hs], ?_, ?_,
    case_variant_to_lower_copy, ?_⟩
  · intro s
    simp [to_lower_copy]
  · intro s i c hc
    rw [getElem_to_lower_copy, hc]
    refine ⟨fun hn => by rw [Option.map_some', tolower_of_not_upper c hn], fun hu => ?_⟩
    refine ⟨tolower c, rfl, ?_⟩
    rw [tolower_toNat, if_pos hu]
  · intro s
    simp only [to_lower_copy, List.map_map]
    congr 1
    funext c
    exact tolower_idem c

/-- C17, at a file of two lines and the same file with the case of its letters
changed: the sink text is the same. -/
theorem C17_case_invariance_witness :
    (scan_file {} {} {}
      (some ["Failed password from 10.0.0.5 port 22".toList, "Disk ERROR".toList])).alertOut =
    (scan_file {} {} {}
      (some ["fAILED PASSWORD From 10.0.0.5 PORT 22".toList, "disk error".toList])).alertOut :=
  (C17_case_invariance
    ["Failed password from 10.0.0.5 port 22".toList, "Disk ERROR".toList]
    ["fAILED PASSWORD From 10.0.0.5 PORT 22".toList, "disk error".toList]
    (by decide) {} {} {}).2.1


/-- C18: on a file none of whose lines has "failed password", "error" or
"critical" (after lowercasing), a scan leaves the sink empty and returns false
exactly when the threshold is not negative; with a negative threshold it writes
"ALERT: Multiple failed logins (0)" and the separator and returns true. -/
theorem C18_quiet_file (col : Colors) (cfg : Config) (total : Counters) (lines : List Str)
    (h : ∀ l ∈ lines, mentions "failed password" l = false ∧ mentions "error" l = false ∧
      mentions "critical" l = false) :
    (((scan_file col cfg total (some lines)).alertOut = [] ∧
        (scan_file col cfg total (some lines)).ret = false) ↔ 0 ≤ cfg.failed_threshold) ∧
    (cfg.failed_threshold < 0 →
      (scan_file col cfg total (some lines)).alertOut =
        "ALERT: Multiple failed logins (0)\n----\n".toList ∧
      (scan_file col cfg total (some lines)).ret = true) := by
  have e1 : (scan_loop lines total).failed_this = 0 := by
    rw [scan_loop_failed_this, countP_eq_zero_of _ _ (fun l hl => (h l hl).1)]; rfl
  have e2 : (scan_loop lines total).errors_this = 0 := by
    rw [scan_loop_errors_this, countP_eq_zero_of _ _ (fun l hl => (h l hl).2.1)]; rfl
  have e3 : (scan_loop lines total).criticals_this = 0 := by
    rw [scan_loop_criticals_this, countP_eq_zero_of _ _ (fun l hl => (h l hl).2.2)]; rfl
  simp only [scan_file, report_alertOut, report_ret, e1, e2, e3]
  by_cases ht : 0 > cfg.failed_threshold
  · have hf : fired 0 0 0 cfg.failed_threshold = [failed_msg 0] := by simp [fired, ht]
    rw [hf]
    refine ⟨?_, fun _ => ⟨by decide, by decide⟩⟩
    constructor
    · intro hc
      exact absurd hc.2 (by decide)
    · intro hc; omega
  · have hf : fired 0 0 0 cfg.failed_threshold = [] := by simp [fired, ht]
    rw [hf]
    refine ⟨?_, fun hc => by omega⟩
    constructor
    · intro _; omega
    · intro _; exact ⟨by decide, by decide⟩

/-- C18, at the empty file and at a file of one harmless line: threshold 0 leaves
the sink empty, threshold -1 gives the alert for 0 failed logins. -/
theorem C18_quiet_file_witness :
    ((scan_file {} { failed_threshold := 0 } {} (some [])).alertOut = [] ∧
      (scan_file {} { failed_threshold := 0 } {} (some [])).ret = false) ∧
    ((scan_file {} { failed_threshold := -1 } {} (some ["all fine".toList])).alertOut =
        "ALERT: Multiple failed logins (0)\n----\n".toList ∧
      (scan_file {} { failed_threshold := -1 } {} (some ["all fine".toList])).ret = true) :=
  ⟨(C18_quiet_file {} { failed_threshold := 0 } {} [] (by decide)).1.mpr (by decide),
    (C18_quiet_file {} { failed_threshold := -1 } {} ["all fine".toList] (by decide)).2
      (by decide)⟩

end LogMonitor

